import Mathlib

/-!
Verification of the core of the llm-pipeline-visualizer repository: the
temperature/top-k/top-p sampling pipeline (`js/pipeline.js`) and the canvas
visualization engine (`js/viz.js`).

The JavaScript source is embedded shallowly: JS numbers become rationals
(exact real arithmetic), `Math.exp` becomes an abstract function parameter
`E` (its only relevant property, positivity, is a hypothesis where needed),
`Math.random()` becomes the explicit parameter `r`, the external token
decoder `models.decodeToken` becomes the parameter `decode`, the string
formatter `fmt` becomes the parameter `fmt2`, and code that can throw
returns `Option` with `none` as the error state.
-/

namespace LLMViz

/-! ## Sampler data model (js/pipeline.js, `computePredictions`) -/

/-- Element of the `indexed` working array of `computePredictions`:
`{ val: scaled[i], rawLogit: logits[i], idx: i }`. -/
structure Indexed where
  val : ℚ
  rawLogit : ℚ
  idx : ℕ
  deriving Repr, DecidableEq

/-- One entry of the prediction list produced by `computePredictions`
(step 3 initialises `inNucleus`, `isSampled` to `false` and
`nucleusProb` to `0`). -/
structure Prediction where
  word : String
  prob : ℚ
  logit : ℚ
  tokenId : ℕ
  inNucleus : Bool
  isSampled : Bool
  nucleusProb : ℚ
  deriving Repr, DecidableEq

/-- Step 1 of `computePredictions`: `const t = Math.max(temperature, 0.01)`. -/
def tempOf (temperature : ℚ) : ℚ := max temperature (1 / 100)

/-- Steps 1 and 2: the scaling loop `scaled[i] = logits[i] / t` followed by
the loop pushing `{ val: scaled[i], rawLogit: logits[i], idx: i }` for
every index `i` of the logits array. -/
def indexedOf (logits : List ℚ) (t : ℚ) : List Indexed :=
  (List.range logits.length).map fun i => ⟨logits.getD i 0 / t, logits.getD i 0, i⟩

/-- Order realising `indexed.sort((a, b) => b.val - a.val)`.  JavaScript
`Array.prototype.sort` is stable and the `indexed` array lists
pairwise-distinct `idx` in ascending order, so the stable descending sort
by `val` coincides with sorting by the total order "greater `val` first,
ties by smaller `idx` first". -/
def keyLE (a b : Indexed) : Prop :=
  b.val < a.val ∨ (a.val = b.val ∧ a.idx ≤ b.idx)

instance : DecidableRel keyLE := fun a b => by
  unfold keyLE; infer_instance

instance : IsTotal Indexed keyLE where
  total a b := by
    unfold keyLE
    rcases lt_trichotomy a.val b.val with h | h | h
    · exact Or.inr (Or.inl h)
    · rcases Nat.le_total a.idx b.idx with hi | hi
      · exact Or.inl (Or.inr ⟨h, hi⟩)
      · exact Or.inr (Or.inr ⟨h.symm, hi⟩)
    · exact Or.inl (Or.inl h)

instance : IsTrans Indexed keyLE where
  trans a b c hab hbc := by
    unfold keyLE at *
    rcases hab with h1 | ⟨h1, h1i⟩ <;> rcases hbc with h2 | ⟨h2, h2i⟩
    · exact Or.inl (h2.trans h1)
    · exact Or.inl (h2 ▸ h1)
    · exact Or.inl (by rw [h1]; exact h2)
    · exact Or.inr ⟨h1.trans h2, le_trans h1i h2i⟩

/-- The stable sort of the `indexed` array. -/
def sortIndexed (l : List Indexed) : List Indexed := l.insertionSort keyLE

/-- Step 2 tail: `indexed.sort(...)` followed by `indexed.slice(0, topK)`. -/
def topItemsOf (logits : List ℚ) (temperature : ℚ) (topK : ℕ) : List Indexed :=
  (sortIndexed (indexedOf logits (tempOf temperature))).take topK

/-- Step 3: softmax over the top-k slice.  The source subtracts
`topItems[0].val` before exponentiating; `Math.exp` is the abstract `E`. -/
def softmaxPreds (E : ℚ → ℚ) (decode : ℕ → String) (topItems : List Indexed) :
    List Prediction :=
  let maxVal := (topItems.headD ⟨0, 0, 0⟩).val
  let sumExp := (topItems.map fun it => E (it.val - maxVal)).sum
  topItems.map fun it =>
    { word := decode it.idx
      prob := E (it.val - maxVal) / sumExp
      logit := it.rawLogit
      tokenId := it.idx
      inNucleus := false
      isSampled := false
      nucleusProb := 0 }

/-- Step 4, the top-p walk:
`cumProb += pred.prob; pred.inNucleus = true; if (cumProb >= topP) break;`. -/
def markNucleus (topP : ℚ) : ℚ → List Prediction → List Prediction
  | _, [] => []
  | cum, p :: ps =>
    if topP ≤ cum + p.prob then { p with inNucleus := true } :: ps
    else { p with inNucleus := true } :: markNucleus topP (cum + p.prob) ps

/-- Step 5: `nucleus.forEach(p => { p.nucleusProb = p.prob / nucleusSum })`
over `nucleus = predictions.filter(p => p.inNucleus)`. -/
def renormStep (preds : List Prediction) : List Prediction :=
  let nucleusSum := ((preds.filter (·.inNucleus)).map (·.prob)).sum
  preds.map fun p =>
    if p.inNucleus then { p with nucleusProb := p.prob / nucleusSum } else p

/-- Step 6 main loop: walk nucleus members in order accumulating
`nucleusProb` and mark the first one with `r <= cum` sampled.  Iterating
over the `nucleus` array of references into `predictions` is modelled by
walking the whole list: only `inNucleus` members contribute to `cum` or can
be marked, and the walk stops at the first mark. -/
def markSampled (r : ℚ) : ℚ → List Prediction → List Prediction
  | _, [] => []
  | cum, p :: ps =>
    if p.inNucleus then
      if r ≤ cum + p.nucleusProb then { p with isSampled := true } :: ps
      else p :: markSampled r (cum + p.nucleusProb) ps
    else p :: markSampled r cum ps

/-- Step 6 fallback: `nucleus[0].isSampled = true`, i.e. mark the first
nucleus member. -/
def markFirstNucleus : List Prediction → List Prediction
  | [] => []
  | p :: ps =>
    if p.inNucleus then { p with isSampled := true } :: ps
    else p :: markFirstNucleus ps

/-- Steps 4 to 6 applied after the softmax, including the fallback test
`if (!nucleus.some(p => p.isSampled)) nucleus[0].isSampled = true`. -/
def samplePhase (r topP : ℚ) (preds : List Prediction) : List Prediction :=
  let preds3 := markSampled r 0 (renormStep (markNucleus topP 0 preds))
  if (preds3.filter (·.inNucleus)).any (·.isSampled) then preds3
  else markFirstNucleus preds3

/-- The sampler `computePredictions(logits, temperature, topK, topP)` of
js/pipeline.js.  `none` models the `TypeError` thrown at
`topItems[0].val` when the top-k slice is empty, which happens exactly for
an empty logits array or `topK = 0`. -/
def computePredictionsQ (E : ℚ → ℚ) (decode : ℕ → String) (r : ℚ)
    (logits : List ℚ) (temperature : ℚ) (topK : ℕ) (topP : ℚ) :
    Option (List Prediction) :=
  let topItems := topItemsOf logits temperature topK
  if topItems.isEmpty then none
  else some (samplePhase r topP (softmaxPreds E decode topItems))

/-! ## Camera model (js/viz.js) -/

/-- The clamp helper of js/utils.js:
`clamp(val, min, max) = Math.min(Math.max(val, min), max)`. -/
def clamp (val lo hi : ℚ) : ℚ := min (max val lo) hi

/-- Zoom/pan state of the canvas visualization:
`let zoom = 1; let panX = 0; let panY = 0;`. -/
structure Camera where
  zoom : ℚ
  panX : ℚ
  panY : ℚ
  deriving Repr, DecidableEq

/-- The initial camera state. -/
def camInit : Camera := ⟨1, 0, 0⟩

/-- The camera-affecting operations of js/viz.js.  Quantities the source
reads from the DOM or from the scene (pointer position, canvas size,
content bounding box) are parameters of the operation. -/
inductive CameraOp where
  /-- `handleWheel(e)`: pointer position and the sign test `e.deltaY > 0`. -/
  | wheel (mx my : ℚ) (deltaYPos : Bool)
  /-- `zoomIn()`: `zoom = clamp(zoom * 1.3, 0.15, 4)`. -/
  | zoomIn
  /-- `zoomOut()`: `zoom = clamp(zoom * 0.7, 0.15, 4)`. -/
  | zoomOut
  /-- Drag panning in `handleMouseMove`, as the accumulated pointer delta. -/
  | drag (dx dy : ℚ)
  /-- The auto-fit at the end of `build(...)`, with the canvas size and the
  computed `totalWidth` / `totalNodeHeight` as parameters. -/
  | buildFit (canvasW canvasH totalWidth totalHeight : ℚ)
  /-- `resetView()` with a scene present, with the canvas size, content
  size and content origin as parameters. -/
  | resetFit (canvasW canvasH contentW contentH minX minY : ℚ)
  /-- `resetView()` with `columns.length === 0`: only redraws. -/
  | resetNoScene
  /-- `clear()`: resets the scene arrays and `animProgress`; it does not
  touch `zoom`, `panX` or `panY`. -/
  | clear
  deriving Repr, DecidableEq

/-- One camera operation of js/viz.js, as a state transformer. -/
def applyOp (c : Camera) : CameraOp → Camera
  | .wheel mx my pos =>
    let delta : ℚ := if pos then 9 / 10 else 11 / 10
    let z := clamp (c.zoom * delta) (15 / 100) 4
    { zoom := z
      panX := mx - (mx - c.panX) * (z / c.zoom)
      panY := my - (my - c.panY) * (z / c.zoom) }
  | .zoomIn => { c with zoom := clamp (c.zoom * (13 / 10)) (15 / 100) 4 }
  | .zoomOut => { c with zoom := clamp (c.zoom * (7 / 10)) (15 / 100) 4 }
  | .drag dx dy => { c with panX := c.panX + dx, panY := c.panY + dy }
  | .buildFit cw ch tw th =>
    let z := max (min (min (cw / tw) (ch / th)) (3 / 2)) (3 / 10)
    { zoom := z
      panX := (cw - tw * z) / 2
      panY := max ((ch - th * z) / 2) 10 }
  | .resetFit cw ch contentW contentH minX minY =>
    let z := max (min (min (cw / contentW) (ch / contentH)) (3 / 2)) (3 / 10)
    { zoom := z
      panX := (cw - contentW * z) / 2 - minX * z
      panY := (ch - contentH * z) / 2 - minY * z }
  | .resetNoScene => c
  | .clear => c

/-- The zoom-scale invariant of the spec: scale stays in `[0.15, 4]`. -/
def zoomInBounds (c : Camera) : Prop := 15 / 100 ≤ c.zoom ∧ c.zoom ≤ 4

/-! ## Helper projections used to state frame conditions on `Prediction` -/

/-- Forget the `inNucleus` flag (everything step 4 can change). -/
def clearNucleus (p : Prediction) : Prediction := { p with inNucleus := false }

/-- Forget the `isSampled` flag (everything step 6 can change). -/
def clearSampled (p : Prediction) : Prediction := { p with isSampled := false }

/-- Forget the `nucleusProb` field (everything step 5 can change). -/
def clearNucProb (p : Prediction) : Prediction := { p with nucleusProb := 0 }

/-- The fields of a prediction that steps 4 to 6 never touch. -/
def coreOf (p : Prediction) : String × ℚ × ℚ × ℕ := (p.word, p.prob, p.logit, p.tokenId)

/-- The empty-input short-circuit of `runPipeline` in js/app.js:
`const text = queryInput.value.trim(); if (!text || isProcessing) return;`.
`text` is the already-trimmed input; the pipeline runs only when this is
`true`. -/
def runPipelineStarts (text : String) (isProcessing : Bool) : Bool :=
  !text.isEmpty && !isProcessing

/-! ## Scene geometry and hit-testing (js/viz.js) -/

/-- A point in scene coordinates. -/
structure Point where
  x : ℚ
  y : ℚ
  deriving Repr, DecidableEq

/-- Hit-test outcome of `handleMouseMove`: the JS code returns the bar or
node object itself; here it is identified by its position in the scene
arrays (bar index, or column index and row index). -/
inductive Hit where
  | bar (i : ℕ)
  | node (c i : ℕ)
  deriving Repr, DecidableEq

/-- The node/bar geometry of a built scene (the label and payload fields
of the JS objects are irrelevant to hit-testing). -/
structure Scene where
  columns : List (List Point)
  bars : List Point
  deriving Repr, DecidableEq

/-- First point, counting from `k`, whose squared distance to `(mx, my)`
is below `r2`; mirrors the scan loops of `handleMouseMove` with their
conditions `dx * dx + dy * dy < 64` (bars) and
`dx * dx + dy * dy < (NODE_RADIUS + 4) * (NODE_RADIUS + 4)` (nodes). -/
def firstHitFrom (mx my r2 : ℚ) : List Point → ℕ → Option ℕ
  | [], _ => none
  | q :: qs, k =>
    if (mx - q.x) * (mx - q.x) + (my - q.y) * (my - q.y) < r2 then some k
    else firstHitFrom mx my r2 qs (k + 1)

/-- The node scan of `handleMouseMove`: columns in order, rows in order,
first hit wins. -/
def findNodeFrom (mx my : ℚ) : List (List Point) → ℕ → Option Hit
  | [], _ => none
  | col :: rest, c =>
    match firstHitFrom mx my 100 col 0 with
    | some i => some (.node c i)
    | none => findNodeFrom mx my rest (c + 1)

/-- Non-dragging hit detection of `handleMouseMove`, in scene coordinates
(the source first maps the pointer through the inverse camera transform):
output bars are tested first with squared radius `64`, then nodes in
column order with squared radius `(NODE_RADIUS + 4)² = 100`. -/
def hitTest (s : Scene) (mx my : ℚ) : Option Hit :=
  match firstHitFrom mx my 64 s.bars 0 with
  | some i => some (.bar i)
  | none => findNodeFrom mx my s.columns 0

/-- `build`: the logit-column vertical gap
`Math.max(22, Math.min(ROW_GAP, ((numTokens-1)*ROW_GAP) / Math.max(numPreds-1, 1)))`
with `ROW_GAP = 36` and `MIN_LOGIT_GAP = 22`. -/
def logitGap (numTokens numPreds : ℕ) : ℚ :=
  max 22 (min 36 (((numTokens : ℚ) - 1) * 36 / max ((numPreds : ℚ) - 1) 1))

/-- One column of nodes: fixed `x`, `y = startY + i * gap` with
`startY = TOP_PADDING + 30 = 80`. -/
def mkCol (x : ℚ) (count : ℕ) (gap : ℚ) : List Point :=
  (List.range count).map fun i : ℕ => ⟨x, 80 + (i : ℚ) * gap⟩

/-- Node positions laid out by `build(tokens, modelConfig, predictions)`
for `n` tokens, `L` layers and `m` predictions: the x cursor starts at
`LEFT_PADDING = 100` and advances by `COLUMN_GAP = 70` per column, so the
token column is at 100, embeddings at 170, layer `l` at `240 + 70 l` and
logits at `240 + 70 L`; token/embedding/layer columns have `n` nodes with
gap `ROW_GAP = 36`, the logit column has `m` nodes with `logitGap`. -/
def buildColumns (n L m : ℕ) : List (List Point) :=
  mkCol 100 n 36 :: mkCol 170 n 36 ::
    (((List.range L).map fun l : ℕ => mkCol (240 + 70 * (l : ℚ)) n 36) ++
      [mkCol (240 + 70 * (L : ℚ)) m (logitGap n m)])

/-- Output bars: the x cursor advances past the logit column by
`COLUMN_GAP + 10`, giving `320 + 70 L`; y reuses the logit node
positions. -/
def buildBars (n L m : ℕ) : List Point :=
  (List.range m).map fun i : ℕ => ⟨320 + 70 * (L : ℚ), 80 + (i : ℚ) * logitGap n m⟩

/-- The geometric scene produced by `build`. -/
def buildScene (n L m : ℕ) : Scene :=
  ⟨buildColumns n L m, buildBars n L m⟩

/-- The node of column `c`, row `i` of a scene. -/
def nodeAt (s : Scene) (c i : ℕ) : Option Point :=
  s.columns[c]?.bind fun col => col[i]?

/-! ## Scene data model for the partial update path (js/viz.js) -/

/-- The `type` tag of a column. -/
inductive ColKind where
  | token
  | embedding
  | transformer
  | logit
  deriving Repr, DecidableEq

/-- A rendered node with the payload fields `updatePredictions` touches. -/
structure VNode where
  x : ℚ
  y : ℚ
  label : String
  word : String
  prob : ℚ
  logit : ℚ
  deriving Repr, DecidableEq

/-- An output bar of the rendered scene. -/
structure VBar where
  x : ℚ
  y : ℚ
  word : String
  prob : ℚ
  logit : ℚ
  inNucleus : Bool
  isSampled : Bool
  nucleusProb : ℚ
  isWinner : Bool
  deriving Repr, DecidableEq

/-- A column of the rendered scene. -/
structure VColumn where
  kind : ColKind
  nodes : List VNode
  deriving Repr, DecidableEq

/-- The rendered scene state (`columns` and `outputBars`). -/
structure VScene where
  columns : List VColumn
  bars : List VBar
  deriving Repr, DecidableEq

/-- `updatePredictions` on one logit node:
`label = fmt(p.logit, 2); word = p.word; prob = p.prob; logit = p.logit`
(`fmt` is the abstract formatter parameter `fmt2`). -/
def patchNode (fmt2 : ℚ → String) (p : Prediction) (nd : VNode) : VNode :=
  { nd with label := fmt2 p.logit, word := p.word, prob := p.prob, logit := p.logit }

/-- `updatePredictions` on the output bar at index `i`.  The source also
recomputes `isWinner = (i === 0)`; `p.nucleusProb || 0` equals
`p.nucleusProb` on rationals (`0 || 0` is `0`). -/
def patchBar (p : Prediction) (i : ℕ) (b : VBar) : VBar :=
  { b with
    word := p.word
    prob := p.prob
    logit := p.logit
    inNucleus := p.inNucleus
    isSampled := p.isSampled
    nucleusProb := p.nucleusProb
    isWinner := i == 0 }

/-- `predictions.forEach((p, i) => { if (i < logitCol.nodes.length) ... })`:
prediction `i` patches node `i`; extra predictions are ignored; trailing
nodes keep their previous data. -/
def updateNodes (fmt2 : ℚ → String) : List Prediction → List VNode → List VNode
  | _, [] => []
  | [], ns => ns
  | p :: ps, nd :: ns => patchNode fmt2 p nd :: updateNodes fmt2 ps ns

/-- `outputBars.forEach((bar, i) => { if (i < predictions.length) ... })`,
with the bar index `i` threaded explicitly. -/
def updateBars : ℕ → List Prediction → List VBar → List VBar
  | _, _, [] => []
  | _, [], bs => bs
  | i, p :: ps, b :: bs => patchBar p i b :: updateBars (i + 1) ps bs

/-- `columns.find(c => c.type === 'logit')` patched in place: only the
first logit-typed column is updated. -/
def patchLogitColumns (fmt2 : ℚ → String) (preds : List Prediction) :
    List VColumn → List VColumn
  | [] => []
  | col :: rest =>
    if col.kind = ColKind.logit then
      { col with nodes := updateNodes fmt2 preds col.nodes } :: rest
    else col :: patchLogitColumns fmt2 preds rest

/-- `updatePredictions(predictions)` of js/viz.js: a no-op when no scene
is built (`columns.length === 0`), otherwise patch the logit column nodes
and the output bars in place by index. -/
def updatePredictionsV (fmt2 : ℚ → String) (preds : List Prediction)
    (s : VScene) : VScene :=
  if s.columns.isEmpty then s
  else { columns := patchLogitColumns fmt2 preds s.columns,
         bars := updateBars 0 preds s.bars }

/-! ## Heap model for the mutation claim (js/pipeline.js, step 1) -/

/-- A heap of numeric arrays; a typed-array reference is an index into the
heap.  Aliasing is explicit, so "computePredictions never mutates its
logits argument" becomes a real statement about the heap cell behind the
argument reference. -/
abbrev Heap : Type := List (List ℚ)

/-- Dereference an array. -/
def heapRead (h : Heap) (ref : ℕ) : List ℚ := h.getD ref []

/-- `arr[i] = v` on the array behind `ref` (out-of-range writes are
dropped, as for a `Float32Array`). -/
def heapWrite (h : Heap) (ref i : ℕ) (v : ℚ) : Heap :=
  h.set ref ((h.getD ref []).set i v)

/-- The write loop of step 1: `for i: scaled[i] = logits[i] / t`, with
`cnt` iterations remaining and `i` the next index. -/
def scaleLoop (src dst : ℕ) (t : ℚ) : ℕ → ℕ → Heap → Heap
  | _, 0, h => h
  | i, cnt + 1, h =>
    scaleLoop src dst t (i + 1) cnt
      (heapWrite h dst i ((heapRead h src).getD i 0 / t))

/-- `const scaled = new Float32Array(logits.length)` — a fresh zero-filled
array appended to the heap — followed by the write loop; returns the new
heap and the fresh reference. -/
def scaleStep (h : Heap) (src : ℕ) (t : ℚ) : Heap × ℕ :=
  (scaleLoop src h.length t 0 (heapRead h src).length
    (h ++ [List.replicate (heapRead h src).length 0]), h.length)

/-- `computePredictions` with step 1 performed against the explicit heap:
it allocates a fresh array for `scaled`, writes only into it, and the
loop of step 2 builds the `indexed` array from reads of `scaled` and
`logits`; steps 3 to 6 construct fresh objects. -/
def computePredictionsH (E : ℚ → ℚ) (decode : ℕ → String) (r : ℚ)
    (h : Heap) (src : ℕ) (temperature : ℚ) (topK : ℕ) (topP : ℚ) :
    Heap × Option (List Prediction) :=
  let t := tempOf temperature
  let h1 := (scaleStep h src t).1
  let dst := (scaleStep h src t).2
  let scaled := heapRead h1 dst
  let logits := heapRead h1 src
  let indexed := (List.range logits.length).map fun i =>
    (⟨scaled.getD i 0, logits.getD i 0, i⟩ : Indexed)
  let topItems := (sortIndexed indexed).take topK
  (h1, if topItems.isEmpty then none
    else some (samplePhase r topP (softmaxPreds E decode topItems)))

/-- Repeated `recomputePredictions()` against the retained `lastLogits`
reference. -/
def recomputeIterH (E : ℚ → ℚ) (decode : ℕ → String) (r : ℚ)
    (temperature : ℚ) (topK : ℕ) (topP : ℚ) (src : ℕ) : ℕ → Heap → Heap
  | 0, h => h
  | k + 1, h =>
    recomputeIterH E decode r temperature topK topP src k
      (computePredictionsH E decode r h src temperature topK topP).1

/-! ## Theorems -/

theorem clamp_mem (val lo hi : ℚ) (h : lo ≤ hi) :
    lo ≤ clamp val lo hi ∧ clamp val lo hi ≤ hi := by
  unfold clamp
  constructor
  · exact le_min (le_max_right val lo) h
  · exact min_le_right _ _

theorem applyOp_zoomInBounds (c : Camera) (op : CameraOp)
    (hc : zoomInBounds c) : zoomInBounds (applyOp c op) := by
  have hb : (15 / 100 : ℚ) ≤ 4 := by norm_num
  cases op with
  | wheel mx my pos =>
    exact ⟨(clamp_mem _ _ _ hb).1, (clamp_mem _ _ _ hb).2⟩
  | zoomIn => exact ⟨(clamp_mem _ _ _ hb).1, (clamp_mem _ _ _ hb).2⟩
  | zoomOut => exact ⟨(clamp_mem _ _ _ hb).1, (clamp_mem _ _ _ hb).2⟩
  | drag dx dy => exact hc
  | buildFit cw ch tw th =>
    constructor
    · have : (15 / 100 : ℚ) ≤ 3 / 10 := by norm_num
      exact le_trans this (le_max_right _ _)
    · have h1 : min (min (cw / tw) (ch / th)) (3 / 2 : ℚ) ≤ 3 / 2 := min_le_right _ _
      have h2 : (3 / 10 : ℚ) ≤ 3 / 2 := by norm_num
      have h3 : max (min (min (cw / tw) (ch / th)) (3 / 2)) (3 / 10 : ℚ) ≤ 3 / 2 :=
        max_le h1 h2
      exact le_trans h3 (by norm_num)
  | resetFit cw ch contentW contentH minX minY =>
    constructor
    · have : (15 / 100 : ℚ) ≤ 3 / 10 := by norm_num
      exact le_trans this (le_max_right _ _)
    · have h1 : min (min (cw / contentW) (ch / contentH)) (3 / 2 : ℚ) ≤ 3 / 2 :=
        min_le_right _ _
      have h2 : (3 / 10 : ℚ) ≤ 3 / 2 := by norm_num
      have h3 : max (min (min (cw / contentW) (ch / contentH)) (3 / 2)) (3 / 10 : ℚ) ≤ 3 / 2 :=
        max_le h1 h2
      exact le_trans h3 (by norm_num)
  | resetNoScene => exact hc
  | clear => exact hc

theorem foldl_zoomInBounds (ops : List CameraOp) :
    ∀ c : Camera, zoomInBounds c → zoomInBounds (ops.foldl applyOp c) := by
  induction ops with
  | nil => exact fun c hc => hc
  | cons op rest ih =>
    intro c hc
    exact ih (applyOp c op) (applyOp_zoomInBounds c op hc)

/-- C5: starting from the initial scale 1, after any sequence of camera
operations (wheel zoom, zoomIn, zoomOut, the build auto-fit, resetView,
plus the pan/clear operations that do not set the scale) the camera scale
is within `[0.15, 4]`. -/
theorem C5_zoom_scale_in_bounds (ops : List CameraOp) :
    15 / 100 ≤ (ops.foldl applyOp camInit).zoom ∧
      (ops.foldl applyOp camInit).zoom ≤ 4 := by
  have h0 : zoomInBounds camInit := by
    constructor <;> norm_num [camInit]
  exact foldl_zoomInBounds ops camInit h0

theorem wheel_zoom_pos (c : Camera) (mx my : ℚ) (pos : Bool) :
    (applyOp c (.wheel mx my pos)).zoom ≠ 0 := by
  have hb : (15 / 100 : ℚ) ≤ 4 := by norm_num
  have h := (clamp_mem (c.zoom * (if pos then (9 : ℚ) / 10 else 11 / 10)) (15 / 100) 4 hb).1
  have : (applyOp c (.wheel mx my pos)).zoom =
      clamp (c.zoom * (if pos then (9 : ℚ) / 10 else 11 / 10)) (15 / 100) 4 := rfl
  rw [this]
  intro h0
  rw [h0] at h
  norm_num at h

/-- C6: pointer-anchored wheel zoom keeps the scene point under the pointer
fixed: `handleWheel` recomputes `panX = mx - (mx - panX) * (newZoom /
prevZoom)` (and likewise `panY`), so the inverse transform
`(mx - panX) / zoom` yields the same scene coordinate before and after,
exactly, in rational arithmetic. -/
theorem C6_wheel_anchor_fixed (c : Camera) (mx my : ℚ) (pos : Bool)
    (hz : c.zoom ≠ 0) :
    (mx - (applyOp c (.wheel mx my pos)).panX) / (applyOp c (.wheel mx my pos)).zoom
      = (mx - c.panX) / c.zoom ∧
    (my - (applyOp c (.wheel mx my pos)).panY) / (applyOp c (.wheel mx my pos)).zoom
      = (my - c.panY) / c.zoom := by
  have hz' := wheel_zoom_pos c mx my pos
  set z := (applyOp c (.wheel mx my pos)).zoom with hzdef
  have hpx : (applyOp c (.wheel mx my pos)).panX = mx - (mx - c.panX) * (z / c.zoom) := rfl
  have hpy : (applyOp c (.wheel mx my pos)).panY = my - (my - c.panY) * (z / c.zoom) := rfl
  constructor
  · rw [hpx]
    field_simp
    ring
  · rw [hpy]
    field_simp
    ring

/-- C6 witness: the anchor property at a concrete camera and pointer. -/
theorem C6_witness :
    (⟨1, 2, 3⟩ : Camera).zoom ≠ 0 ∧
    ((5 - (applyOp ⟨1, 2, 3⟩ (.wheel 5 7 true)).panX) / (applyOp ⟨1, 2, 3⟩ (.wheel 5 7 true)).zoom
        = (5 - (2 : ℚ)) / 1 ∧
      (7 - (applyOp ⟨1, 2, 3⟩ (.wheel 5 7 true)).panY) / (applyOp ⟨1, 2, 3⟩ (.wheel 5 7 true)).zoom
        = (7 - (3 : ℚ)) / 1) :=
  ⟨by norm_num, C6_wheel_anchor_fixed ⟨1, 2, 3⟩ 5 7 true (by norm_num)⟩

/-- C7 counterexample: at the concrete camera `⟨2, 5, 5⟩`, `clear()` leaves
the camera untouched (scale stays 2, which is neither the initial scale 1
nor any auto-fit value, all of which lie in `[0.3, 1.5]`), while a scene
rebuild (`build`, here with canvas 800x600 and content 1000x500) changes
the scale — the opposite of the claim on both counts. -/
theorem C7_counterexample :
    applyOp ⟨2, 5, 5⟩ CameraOp.clear = ⟨2, 5, 5⟩ ∧
    (applyOp ⟨2, 5, 5⟩ (CameraOp.buildFit 800 600 1000 500)).zoom ≠ 2 := by
  constructor
  · rfl
  · show max (min (min ((800 : ℚ) / 1000) (600 / 500)) (3 / 2)) (3 / 10) ≠ 2
    norm_num

/-- C7 amended: the camera persists across `clear()` (which does not touch
zoom/pan), and every scene rebuild overwrites the camera with an auto-fit
that is independent of the previous camera state; `resetView` likewise
recomputes it. -/
theorem C7_amended_camera_lifecycle :
    (∀ c : Camera, applyOp c CameraOp.clear = c) ∧
    (∀ c c' : Camera, ∀ cw ch tw th : ℚ,
      applyOp c (CameraOp.buildFit cw ch tw th)
        = applyOp c' (CameraOp.buildFit cw ch tw th)) ∧
    (∀ c c' : Camera, ∀ cw ch contentW contentH minX minY : ℚ,
      applyOp c (CameraOp.resetFit cw ch contentW contentH minX minY)
        = applyOp c' (CameraOp.resetFit cw ch contentW contentH minX minY)) := by
  refine ⟨fun c => rfl, fun c c' cw ch tw th => rfl, fun c c' cw ch cW cH mX mY => rfl⟩

/-! ### Frame lemmas for the sampling steps -/

theorem map_proj_eq {α : Type} (f : Prediction → Prediction) (g : Prediction → α)
    (hg : ∀ p, g (f p) = g p) {l₁ l₂ : List Prediction}
    (h : l₁.map f = l₂.map f) : l₁.map g = l₂.map g := by
  have e : ∀ l : List Prediction, l.map (fun p => g (f p)) = l.map g :=
    fun l => List.map_congr_left fun p _ => hg p
  have h1 : l₁.map (fun p => g (f p)) = l₂.map (fun p => g (f p)) := by
    have : (fun p => g (f p)) = g ∘ f := rfl
    rw [this, ← List.map_map, ← List.map_map, h]
  rw [← e l₁, ← e l₂]
  exact h1

theorem all_proj_of_map_eq {α : Type} {g : Prediction → α} {l₁ l₂ : List Prediction}
    (h : l₁.map g = l₂.map g) (a : α) (h2 : ∀ p ∈ l₂, g p = a) :
    ∀ p ∈ l₁, g p = a := by
  intro p hp
  have hm : g p ∈ l₁.map g := List.mem_map_of_mem g hp
  rw [h] at hm
  obtain ⟨q, hq, hgq⟩ := List.mem_map.mp hm
  rw [← hgq, h2 q hq]

theorem map_eq_replicate_of_all {α : Type} {g : Prediction → α} {l : List Prediction}
    {a : α} (h : ∀ p ∈ l, g p = a) :
    l.map g = List.replicate l.length a := by
  induction l with
  | nil => rfl
  | cons p ps ih =>
    simp only [List.map_cons, List.length_cons, List.replicate_succ]
    exact congrArg₂ (· :: ·) (h p (List.mem_cons_self p ps))
      (ih fun q hq => h q (List.mem_cons_of_mem p hq))

theorem markNucleus_map_clearNucleus (topP : ℚ) (cum : ℚ) (l : List Prediction) :
    (markNucleus topP cum l).map clearNucleus = l.map clearNucleus := by
  induction l generalizing cum with
  | nil => rfl
  | cons p ps ih =>
    by_cases h : topP ≤ cum + p.prob <;>
      simp [markNucleus, h, clearNucleus, ih]

theorem markSampled_map_clearSampled (r : ℚ) (cum : ℚ) (l : List Prediction) :
    (markSampled r cum l).map clearSampled = l.map clearSampled := by
  induction l generalizing cum with
  | nil => rfl
  | cons p ps ih =>
    by_cases hn : p.inNucleus = true
    · by_cases hr : r ≤ cum + p.nucleusProb <;>
        simp [markSampled, hn, hr, clearSampled, ih]
    · simp [markSampled, hn, ih]

theorem markFirstNucleus_map_clearSampled (l : List Prediction) :
    (markFirstNucleus l).map clearSampled = l.map clearSampled := by
  induction l with
  | nil => rfl
  | cons p ps ih =>
    by_cases hn : p.inNucleus = true <;>
      simp [markFirstNucleus, hn, clearSampled, ih]

theorem renormStep_map_clearNucProb (preds : List Prediction) :
    (renormStep preds).map clearNucProb = preds.map clearNucProb := by
  simp only [renormStep, List.map_map]
  apply List.map_congr_left
  intro p _
  by_cases hn : p.inNucleus = true <;> simp [Function.comp, hn, clearNucProb]

theorem samplePhase_eq (r topP : ℚ) (l : List Prediction) :
    samplePhase r topP l
      = if ((markSampled r 0 (renormStep (markNucleus topP 0 l))).filter
            (·.inNucleus)).any (·.isSampled)
        then markSampled r 0 (renormStep (markNucleus topP 0 l))
        else markFirstNucleus (markSampled r 0 (renormStep (markNucleus topP 0 l))) := rfl

theorem samplePhase_map_clearSampled (r topP : ℚ) (l : List Prediction) :
    (samplePhase r topP l).map clearSampled
      = (renormStep (markNucleus topP 0 l)).map clearSampled := by
  rw [samplePhase_eq]
  by_cases h : ((markSampled r 0 (renormStep (markNucleus topP 0 l))).filter
      (·.inNucleus)).any (·.isSampled) = true
  · rw [if_pos h]
    exact markSampled_map_clearSampled r 0 _
  · rw [if_neg h, markFirstNucleus_map_clearSampled, markSampled_map_clearSampled]

theorem samplePhase_map_coreOf (r topP : ℚ) (l : List Prediction) :
    (samplePhase r topP l).map coreOf = l.map coreOf := by
  have h2 : (samplePhase r topP l).map coreOf
      = (renormStep (markNucleus topP 0 l)).map coreOf :=
    map_proj_eq clearSampled coreOf (fun _ => rfl) (samplePhase_map_clearSampled r topP l)
  have h3 : (renormStep (markNucleus topP 0 l)).map coreOf
      = (markNucleus topP 0 l).map coreOf :=
    map_proj_eq clearNucProb coreOf (fun _ => rfl) (renormStep_map_clearNucProb _)
  have h4 : (markNucleus topP 0 l).map coreOf = l.map coreOf :=
    map_proj_eq clearNucleus coreOf (fun _ => rfl) (markNucleus_map_clearNucleus topP 0 l)
  rw [h2, h3, h4]

theorem samplePhase_map_inNucleus (r topP : ℚ) (l : List Prediction) :
    (samplePhase r topP l).map (·.inNucleus)
      = (markNucleus topP 0 l).map (·.inNucleus) := by
  have h2 : (samplePhase r topP l).map (·.inNucleus)
      = (renormStep (markNucleus topP 0 l)).map (·.inNucleus) :=
    map_proj_eq clearSampled (·.inNucleus) (fun _ => rfl)
      (samplePhase_map_clearSampled r topP l)
  have h3 : (renormStep (markNucleus topP 0 l)).map (·.inNucleus)
      = (markNucleus topP 0 l).map (·.inNucleus) :=
    map_proj_eq clearNucProb (·.inNucleus) (fun _ => rfl) (renormStep_map_clearNucProb _)
  rw [h2, h3]

theorem samplePhase_map_prob (r topP : ℚ) (l : List Prediction) :
    (samplePhase r topP l).map (·.prob) = l.map (·.prob) := by
  have h2 : (samplePhase r topP l).map (·.prob)
      = (renormStep (markNucleus topP 0 l)).map (·.prob) :=
    map_proj_eq clearSampled (·.prob) (fun _ => rfl)
      (samplePhase_map_clearSampled r topP l)
  have h3 : (renormStep (markNucleus topP 0 l)).map (·.prob)
      = (markNucleus topP 0 l).map (·.prob) :=
    map_proj_eq clearNucProb (·.prob) (fun _ => rfl) (renormStep_map_clearNucProb _)
  have h4 : (markNucleus topP 0 l).map (·.prob) = l.map (·.prob) :=
    map_proj_eq clearNucleus (·.prob) (fun _ => rfl) (markNucleus_map_clearNucleus topP 0 l)
  rw [h2, h3, h4]

theorem renormStep_map_inNucleus (l : List Prediction) :
    (renormStep l).map (·.inNucleus) = l.map (·.inNucleus) :=
  map_proj_eq clearNucProb (·.inNucleus) (fun _ => rfl) (renormStep_map_clearNucProb l)

theorem renormStep_map_isSampled (l : List Prediction) :
    (renormStep l).map (·.isSampled) = l.map (·.isSampled) :=
  map_proj_eq clearNucProb (·.isSampled) (fun _ => rfl) (renormStep_map_clearNucProb l)

theorem markNucleus_map_isSampled (topP cum : ℚ) (l : List Prediction) :
    (markNucleus topP cum l).map (·.isSampled) = l.map (·.isSampled) :=
  map_proj_eq clearNucleus (·.isSampled) (fun _ => rfl)
    (markNucleus_map_clearNucleus topP cum l)

/-! ### The nucleus walk -/

theorem markNucleus_cons (topP cum : ℚ) (p : Prediction) (ps : List Prediction) :
    markNucleus topP cum (p :: ps)
      = if topP ≤ cum + p.prob then { p with inNucleus := true } :: ps
        else { p with inNucleus := true } :: markNucleus topP (cum + p.prob) ps := rfl

theorem markNucleus_spec (topP : ℚ) : ∀ (cum : ℚ) (l : List Prediction),
    l ≠ [] →
    ∃ k, 1 ≤ k ∧ k ≤ l.length ∧
      (markNucleus topP cum l).map (·.inNucleus)
        = List.replicate k true ++ (l.drop k).map (·.inNucleus) ∧
      (topP ≤ cum + ((l.map (·.prob)).take k).sum ∨ k = l.length) ∧
      (∀ j, j + 1 < k → cum + ((l.map (·.prob)).take (j + 1)).sum < topP)
  | _, [], hl => absurd rfl hl
  | cum, [p], _ => by
    refine ⟨1, le_refl 1, by simp, ?_, ?_, by omega⟩
    · by_cases h : topP ≤ cum + p.prob <;>
        simp [markNucleus_cons, h, markNucleus]
    · by_cases h : topP ≤ cum + p.prob
      · exact Or.inl (by simpa using h)
      · exact Or.inr rfl
  | cum, p :: q :: qs, _ => by
    by_cases h : topP ≤ cum + p.prob
    · refine ⟨1, le_refl 1, by simp, ?_, Or.inl (by simpa using h), by omega⟩
      simp [markNucleus_cons, h]
    · obtain ⟨k, hk1, hklen, hmap, hcross, hmin⟩ :=
        markNucleus_spec topP (cum + p.prob) (q :: qs) (by simp)
      refine ⟨k + 1, by omega, by simpa using Nat.succ_le_succ hklen, ?_, ?_, ?_⟩
      · rw [markNucleus_cons, if_neg h, List.map_cons, hmap]
        simp [List.replicate_succ]
      · rcases hcross with hc | hc
        · refine Or.inl ?_
          rw [List.map_cons, List.take_succ_cons, List.sum_cons, ← add_assoc]
          exact hc
        · exact Or.inr (by simp [hc])
      · intro j hj
        match j with
        | 0 =>
          simpa using lt_of_not_le h
        | j' + 1 =>
          have hm := hmin j' (by omega)
          rw [List.map_cons, List.take_succ_cons, List.sum_cons, ← add_assoc]
          exact hm

theorem markNucleus_all (topP : ℚ) : ∀ (cum : ℚ) (l : List Prediction),
    (∀ p ∈ l, 0 < p.prob) →
    cum + (l.map (·.prob)).sum ≤ topP →
    (markNucleus topP cum l).map (·.inNucleus) = List.replicate l.length true
  | _, [], _, _ => rfl
  | cum, p :: ps, hpos, hsum => by
    by_cases h : topP ≤ cum + p.prob
    · cases hps : ps with
      | nil => simp [markNucleus, h]
      | cons q qs =>
        exfalso
        have hq : 0 < (ps.map (·.prob)).sum := by
          apply List.sum_pos
          · intro x hx
            obtain ⟨u, hu, rfl⟩ := List.mem_map.mp hx
            exact hpos u (List.mem_cons_of_mem p hu)
          · simp [hps]
        have : cum + p.prob + (ps.map (·.prob)).sum ≤ topP := by
          simpa [add_assoc] using hsum
        linarith
    · have htail : cum + p.prob + (ps.map (·.prob)).sum ≤ topP := by
        simpa [add_assoc] using hsum
      have ih := markNucleus_all topP (cum + p.prob) ps
        (fun q hq => hpos q (List.mem_cons_of_mem p hq)) htail
      simp [markNucleus, h, ih, List.replicate_succ]

/-! ### The sampling walk -/

theorem markSampled_cases (r : ℚ) : ∀ (cum : ℚ) (l : List Prediction),
    markSampled r cum l = l ∨
    ∃ l₁ p l₂, l = l₁ ++ p :: l₂ ∧ p.inNucleus = true ∧
      markSampled r cum l = l₁ ++ { p with isSampled := true } :: l₂
  | _, [] => Or.inl rfl
  | cum, p :: ps => by
    by_cases hn : p.inNucleus = true
    · by_cases hr : r ≤ cum + p.nucleusProb
      · exact Or.inr ⟨[], p, ps, rfl, hn, by simp [markSampled, hn, hr]⟩
      · rcases markSampled_cases r (cum + p.nucleusProb) ps with h | ⟨l₁, q, l₂, heq, hq, hms⟩
        · exact Or.inl (by simp [markSampled, hn, hr, h])
        · exact Or.inr ⟨p :: l₁, q, l₂, by rw [heq]; rfl, hq,
            by simp [markSampled, hn, hr, hms]⟩
    · rcases markSampled_cases r cum ps with h | ⟨l₁, q, l₂, heq, hq, hms⟩
      · exact Or.inl (by simp [markSampled, hn, h])
      · exact Or.inr ⟨p :: l₁, q, l₂, by rw [heq]; rfl, hq,
          by simp [markSampled, hn, hms]⟩

theorem markFirstNucleus_split : ∀ (l : List Prediction),
    (∃ p ∈ l, p.inNucleus = true) →
    ∃ l₁ p l₂, l = l₁ ++ p :: l₂ ∧ p.inNucleus = true ∧
      (∀ q ∈ l₁, q.inNucleus = false) ∧
      markFirstNucleus l = l₁ ++ { p with isSampled := true } :: l₂
  | [], hex => by simp at hex
  | p :: ps, hex => by
    by_cases hn : p.inNucleus = true
    · exact ⟨[], p, ps, rfl, hn, fun q hq => absurd hq (List.not_mem_nil q),
        by simp [markFirstNucleus, hn]⟩
    · obtain ⟨q, hq, hqn⟩ := hex
      rcases List.mem_cons.mp hq with rfl | hq2
      · exact absurd hqn hn
      · obtain ⟨l₁, q2, l₂, heq, hq2n, hall, hm⟩ :=
          markFirstNucleus_split ps ⟨q, hq2, hqn⟩
        refine ⟨p :: l₁, q2, l₂, by rw [heq]; rfl, hq2n, ?_, ?_⟩
        · intro u hu
          rcases List.mem_cons.mp hu with rfl | hu2
          · exact eq_false_of_ne_true hn
          · exact hall u hu2
        · simp [markFirstNucleus, hn, hm]

theorem countP_split (l₁ l₂ : List Prediction) (p : Prediction)
    (h1 : ∀ q ∈ l₁, q.isSampled = false) (h2 : ∀ q ∈ l₂, q.isSampled = false) :
    (l₁ ++ { p with isSampled := true } :: l₂).countP (·.isSampled) = 1 := by
  rw [List.countP_append, List.countP_cons]
  have c1 : l₁.countP (·.isSampled) = 0 :=
    List.countP_eq_zero.mpr (by intro q hq; simp [h1 q hq])
  have c2 : l₂.countP (·.isSampled) = 0 :=
    List.countP_eq_zero.mpr (by intro q hq; simp [h2 q hq])
  simp [c1, c2]

theorem filter_any_false {l : List Prediction}
    (h : ∀ p ∈ l, p.isSampled = false) :
    (l.filter (·.inNucleus)).any (·.isSampled) = false := by
  rw [List.any_eq_false]
  intro p hp
  simp [h p (List.mem_of_mem_filter hp)]

theorem filter_any_true {l : List Prediction} {p : Prediction}
    (hp : p ∈ l) (hn : p.inNucleus = true) (hs : p.isSampled = true) :
    (l.filter (·.inNucleus)).any (·.isSampled) = true := by
  rw [List.any_eq_true]
  exact ⟨p, List.mem_filter.mpr ⟨hp, by simp [hn]⟩, by simp [hs]⟩

/-- Core of C1: after the softmax (all flags false), steps 4 to 6 always
mark exactly one prediction sampled. -/
theorem samplePhase_one_sampled (r topP : ℚ) (l : List Prediction)
    (hl : l ≠ [])
    (hsam : ∀ p ∈ l, p.isSampled = false) :
    (samplePhase r topP l).countP (·.isSampled) = 1 := by
  set preds1 := markNucleus topP 0 l with hp1
  set preds2 := renormStep preds1 with hp2
  set preds3 := markSampled r 0 preds2 with hp3
  -- all predictions are still unsampled after steps 4 and 5
  have hsam2 : ∀ p ∈ preds2, p.isSampled = false := by
    have e1 : preds2.map (·.isSampled) = l.map (·.isSampled) := by
      rw [hp2, renormStep_map_isSampled, hp1, markNucleus_map_isSampled]
    exact all_proj_of_map_eq e1 false hsam
  -- there is a nucleus member after step 4 (the first element)
  have hlen1 : preds1.length = l.length := by
    have := congrArg List.length (markNucleus_map_clearNucleus topP 0 l)
    simpa using this
  have hlen2 : preds2.length = l.length := by
    have := congrArg List.length (renormStep_map_clearNucProb preds1)
    simpa [hlen1] using this
  have hex2 : ∃ p ∈ preds2, p.inNucleus = true := by
    obtain ⟨k, hk1, _, hmap, _, _⟩ := markNucleus_spec topP 0 l hl
    have e2 : preds2.map (·.inNucleus)
        = List.replicate k true ++ (l.drop k).map (·.inNucleus) := by
      rw [hp2, renormStep_map_inNucleus, hp1, hmap]
    cases h2 : preds2 with
    | nil =>
      exfalso
      rw [h2] at hlen2
      exact hl (List.length_eq_zero.mp hlen2.symm)
    | cons q rest =>
      have e3 : (q :: rest).map (·.inNucleus)
          = List.replicate k true ++ (l.drop k).map (·.inNucleus) := by
        rw [← h2]; exact e2
      obtain ⟨k', rfl⟩ : ∃ k', k = k' + 1 := ⟨k - 1, by omega⟩
      simp only [List.replicate_succ, List.cons_append, List.map_cons] at e3
      have hq : q.inNucleus = true := by
        have h4 := congrArg (fun t : List Bool => t.headD false) e3
        simpa using h4
      exact ⟨q, by simp [h2], hq⟩
  -- case analysis on whether the sampling walk marked someone
  have hphase : samplePhase r topP l
      = if (preds3.filter (·.inNucleus)).any (·.isSampled) then preds3
        else markFirstNucleus preds3 := rfl
  rcases markSampled_cases r 0 preds2 with hcase | ⟨l₁, p, l₂, heq, hpn, hms⟩
  · -- nothing marked: the fallback marks the first nucleus member
    have h3 : preds3 = preds2 := hcase
    have hany : (preds3.filter (·.inNucleus)).any (·.isSampled) = false := by
      rw [h3]; exact filter_any_false hsam2
    rw [hphase, hany, if_neg (by simp), h3]
    obtain ⟨l₁, p, l₂, heq, hpn, _, hm⟩ := markFirstNucleus_split preds2 hex2
    rw [hm]
    exact countP_split l₁ l₂ p
      (fun q hq => hsam2 q (heq ▸ List.mem_append_left _ hq))
      (fun q hq => hsam2 q (heq ▸ List.mem_append_right _ (List.mem_cons_of_mem p hq)))
  · -- the walk marked exactly one nucleus member
    have hmem : ({ p with isSampled := true } : Prediction) ∈ preds3 := by
      rw [hp3, hms]
      exact List.mem_append_right _ (List.mem_cons_self _ _)
    have hany : (preds3.filter (·.inNucleus)).any (·.isSampled) = true :=
      filter_any_true hmem (by simpa using hpn) rfl
    rw [hphase, hany, if_pos rfl, hp3, hms]
    exact countP_split l₁ l₂ p
      (fun q hq => hsam2 q (heq ▸ List.mem_append_left _ hq))
      (fun q hq => hsam2 q (heq ▸ List.mem_append_right _ (List.mem_cons_of_mem p hq)))

/-! ### Softmax and top-k slice facts -/

theorem indexedOf_length (logits : List ℚ) (t : ℚ) :
    (indexedOf logits t).length = logits.length := by
  simp [indexedOf]

theorem sortIndexed_perm (l : List Indexed) : (sortIndexed l).Perm l :=
  List.perm_insertionSort keyLE l

theorem topItemsOf_length (logits : List ℚ) (temperature : ℚ) (topK : ℕ) :
    (topItemsOf logits temperature topK).length = min topK logits.length := by
  simp [topItemsOf, List.length_take, (sortIndexed_perm _).length_eq, indexedOf_length]

theorem topItemsOf_nil (temperature : ℚ) (topK : ℕ) :
    topItemsOf [] temperature topK = [] := by
  have h : (topItemsOf [] temperature topK).length = 0 := by
    simp [topItemsOf_length]
  exact List.length_eq_zero.mp h

theorem softmaxPreds_length (E : ℚ → ℚ) (decode : ℕ → String)
    (topItems : List Indexed) :
    (softmaxPreds E decode topItems).length = topItems.length := by
  simp [softmaxPreds]

theorem softmaxPreds_flags (E : ℚ → ℚ) (decode : ℕ → String)
    (topItems : List Indexed) :
    ∀ p ∈ softmaxPreds E decode topItems, p.inNucleus = false ∧ p.isSampled = false := by
  intro p hp
  simp only [softmaxPreds, List.mem_map] at hp
  obtain ⟨it, _, rfl⟩ := hp
  exact ⟨rfl, rfl⟩

theorem list_sum_map_div (l : List ℚ) (c : ℚ) :
    (l.map (· / c)).sum = l.sum / c := by
  induction l with
  | nil => simp
  | cons a l ih => simp [ih, add_div]

theorem softmaxPreds_prob (E : ℚ → ℚ) (decode : ℕ → String)
    (topItems : List Indexed) (hE : ∀ x, 0 < E x) (hne : topItems ≠ []) :
    (∀ p ∈ softmaxPreds E decode topItems, 0 < p.prob) ∧
      ((softmaxPreds E decode topItems).map (·.prob)).sum = 1 := by
  have hSpos : 0 < (topItems.map fun it =>
      E (it.val - (topItems.headD ⟨0, 0, 0⟩).val)).sum := by
    apply List.sum_pos
    · intro x hx
      obtain ⟨it, _, rfl⟩ := List.mem_map.mp hx
      exact hE _
    · simpa using hne
  constructor
  · intro p hp
    simp only [softmaxPreds, List.mem_map] at hp
    obtain ⟨it, _, rfl⟩ := hp
    exact div_pos (hE _) hSpos
  · have hmap : (softmaxPreds E decode topItems).map (·.prob)
        = (topItems.map fun it => E (it.val - (topItems.headD ⟨0, 0, 0⟩).val)).map
            (· / (topItems.map fun it =>
              E (it.val - (topItems.headD ⟨0, 0, 0⟩).val)).sum) := by
      simp [softmaxPreds, List.map_map]
    rw [hmap, list_sum_map_div, div_self (ne_of_gt hSpos)]

theorem all_proj_of_map_replicate {α : Type} {g : Prediction → α}
    {l : List Prediction} {n : ℕ} {a : α}
    (h : l.map g = List.replicate n a) : ∀ p ∈ l, g p = a := by
  intro p hp
  have hm : g p ∈ List.replicate n a := h ▸ List.mem_map_of_mem g hp
  exact List.eq_of_mem_replicate hm

/-! ### Claims C1, C3, C4 -/

/-- C1: for every non-empty scores array, valid temperature, positive topK,
topP in (0,1] and draw r in [0,1), the prediction list returned by
`computePredictions` has exactly one member with `isSampled = true`: the
sampling walk marks the first nucleus member whose cumulative
`nucleusProb` reaches the draw, and the deterministic fallback marks the
first nucleus member when no member crossed, so zero sampled members is
impossible. -/
theorem C1_exactly_one_sampled (E : ℚ → ℚ) (decode : ℕ → String) (r : ℚ)
    (logits : List ℚ) (temperature : ℚ) (topK : ℕ) (topP : ℚ)
    (hlogits : logits ≠ []) (hK : 1 ≤ topK) (htemp : 0 < temperature)
    (hP0 : 0 < topP) (hP1 : topP ≤ 1) (hr0 : 0 ≤ r) (hr1 : r < 1) :
    ∃ preds, computePredictionsQ E decode r logits temperature topK topP = some preds ∧
      preds.countP (·.isSampled) = 1 := by
  have hpos : 0 < (topItemsOf logits temperature topK).length := by
    rw [topItemsOf_length]
    have h0 : 0 < logits.length := List.length_pos.mpr hlogits
    omega
  have hne : topItemsOf logits temperature topK ≠ [] := by
    intro h0
    rw [h0] at hpos
    simp at hpos
  have hemp : (topItemsOf logits temperature topK).isEmpty = false := by
    cases hcase : topItemsOf logits temperature topK with
    | nil => exact absurd hcase hne
    | cons a t => rfl
  refine ⟨samplePhase r topP
    (softmaxPreds E decode (topItemsOf logits temperature topK)), ?_, ?_⟩
  · show (if (topItemsOf logits temperature topK).isEmpty then none
      else some (samplePhase r topP
        (softmaxPreds E decode (topItemsOf logits temperature topK)))) = _
    rw [hemp]
    rfl
  · apply samplePhase_one_sampled
    · intro h0
      have hl := congrArg List.length h0
      rw [softmaxPreds_length] at hl
      simp at hl
      exact hne hl
    · exact fun p hp => (softmaxPreds_flags E decode _ p hp).2

/-- C1 witness: concrete run with scores `[3, 1, 2]`, temperature 1,
topK 2, topP 9/10, draw 1/2. -/
theorem C1_witness :
    (([3, 1, 2] : List ℚ) ≠ [] ∧ 1 ≤ 2 ∧ (0 : ℚ) < 1 ∧ (0 : ℚ) < 9 / 10 ∧
      (9 / 10 : ℚ) ≤ 1 ∧ (0 : ℚ) ≤ 1 / 2 ∧ (1 / 2 : ℚ) < 1) ∧
    ∃ preds, computePredictionsQ (fun _ => 1) (fun _ => "") (1 / 2) [3, 1, 2] 1 2 (9 / 10)
        = some preds ∧ preds.countP (·.isSampled) = 1 :=
  ⟨⟨by simp, by norm_num, by norm_num, by norm_num, by norm_num, by norm_num, by norm_num⟩,
    C1_exactly_one_sampled (fun _ => 1) (fun _ => "") (1 / 2) [3, 1, 2] 1 2 (9 / 10)
      (by simp) (by norm_num) (by norm_num) (by norm_num) (by norm_num) (by norm_num)
      (by norm_num)⟩

/-- C3: in every result of `computePredictions` the members with
`inNucleus = true` form a non-empty contiguous prefix of the returned
list; the prefix ends at the first position where the running probability
sum reaches `topP` (the crossing element included) or covers the whole
list when the sum never crosses; and if `topP ≥ 1` every returned
candidate is in the nucleus.  `hE` records that `Math.exp` is positive. -/
theorem C3_nucleus_prefix_of_result (E : ℚ → ℚ) (decode : ℕ → String) (r : ℚ)
    (logits : List ℚ) (temperature : ℚ) (topK : ℕ) (topP : ℚ)
    (preds : List Prediction) (hE : ∀ x, 0 < E x)
    (hres : computePredictionsQ E decode r logits temperature topK topP = some preds) :
    (∃ k, 1 ≤ k ∧ k ≤ preds.length ∧
      preds.map (·.inNucleus)
        = List.replicate k true ++ List.replicate (preds.length - k) false ∧
      (topP ≤ ((preds.map (·.prob)).take k).sum ∨ k = preds.length) ∧
      (∀ j, j + 1 < k → ((preds.map (·.prob)).take (j + 1)).sum < topP)) ∧
    (1 ≤ topP → ∀ p ∈ preds, p.inNucleus = true) := by
  by_cases hemp : (topItemsOf logits temperature topK).isEmpty = true
  · exfalso
    have : computePredictionsQ E decode r logits temperature topK topP = none := by
      show (if (topItemsOf logits temperature topK).isEmpty then none
        else some (samplePhase r topP
          (softmaxPreds E decode (topItemsOf logits temperature topK)))) = none
      rw [hemp]
      rfl
    rw [this] at hres
    exact Option.noConfusion hres
  · have hne : topItemsOf logits temperature topK ≠ [] := by
      intro h0
      exact hemp (by rw [h0]; rfl)
    have heq : samplePhase r topP
        (softmaxPreds E decode (topItemsOf logits temperature topK)) = preds := by
      have h1 : computePredictionsQ E decode r logits temperature topK topP
          = some (samplePhase r topP
            (softmaxPreds E decode (topItemsOf logits temperature topK))) := by
        show (if (topItemsOf logits temperature topK).isEmpty then none
          else some (samplePhase r topP
            (softmaxPreds E decode (topItemsOf logits temperature topK)))) = _
        rw [eq_false_of_ne_true hemp]
        rfl
      rw [h1] at hres
      exact Option.some.inj hres
    set sp := softmaxPreds E decode (topItemsOf logits temperature topK) with hsp
    have hspne : sp ≠ [] := by
      intro h0
      have hl := congrArg List.length h0
      rw [hsp, softmaxPreds_length] at hl
      simp at hl
      exact hne hl
    have hlen : preds.length = sp.length := by
      have h1 := congrArg List.length (samplePhase_map_coreOf r topP sp)
      simp only [List.length_map] at h1
      rw [← heq]
      exact h1
    have hprob : preds.map (·.prob) = sp.map (·.prob) := by
      rw [← heq]
      exact samplePhase_map_prob r topP sp
    have hnucmap : preds.map (·.inNucleus)
        = (markNucleus topP 0 sp).map (·.inNucleus) := by
      rw [← heq]
      exact samplePhase_map_inNucleus r topP sp
    constructor
    · obtain ⟨k, hk1, hklen, hmap, hcross, hmin⟩ := markNucleus_spec topP 0 sp hspne
      refine ⟨k, hk1, by omega, ?_, ?_, ?_⟩
      · rw [hnucmap, hmap]
        have hdrop : (sp.drop k).map (·.inNucleus)
            = List.replicate (preds.length - k) false := by
          have hall : ∀ p ∈ sp.drop k, p.inNucleus = false :=
            fun p hp => (softmaxPreds_flags E decode _ p (List.drop_subset k sp hp)).1
          rw [map_eq_replicate_of_all hall, List.length_drop, hlen]
        rw [hdrop]
      · rw [hprob]
        rcases hcross with hc | hc
        · exact Or.inl (by simpa using hc)
        · exact Or.inr (by omega)
      · intro j hj
        rw [hprob]
        have := hmin j hj
        simpa using this
    · intro hP p hp
      have hpos := (softmaxPreds_prob E decode _ hE hne).1
      have hsum := (softmaxPreds_prob E decode _ hE hne).2
      have hall : (markNucleus topP 0 sp).map (·.inNucleus)
          = List.replicate sp.length true := by
        apply markNucleus_all
        · exact hpos
        · rw [hsum]
          simpa using hP
      have : preds.map (·.inNucleus) = List.replicate sp.length true := by
        rw [hnucmap, hall]
      exact all_proj_of_map_replicate this p hp

/-- C3 witness: the concrete run of the C1 witness, with the full output
list computed explicitly. -/
theorem C3_witness :
    (∀ x : ℚ, 0 < (fun _ : ℚ => (1 : ℚ)) x) ∧
    computePredictionsQ (fun _ => 1) (fun _ => "") (1 / 2) [3, 1, 2] 1 2 (9 / 10)
      = some [⟨"", 1 / 2, 3, 0, true, true, 1 / 2⟩, ⟨"", 1 / 2, 2, 2, true, false, 1 / 2⟩] ∧
    ((∃ k, 1 ≤ k ∧
      k ≤ ([⟨"", 1 / 2, 3, 0, true, true, 1 / 2⟩,
            ⟨"", 1 / 2, 2, 2, true, false, 1 / 2⟩] : List Prediction).length ∧
      ([⟨"", 1 / 2, 3, 0, true, true, 1 / 2⟩,
        ⟨"", 1 / 2, 2, 2, true, false, 1 / 2⟩] : List Prediction).map (·.inNucleus)
        = List.replicate k true
          ++ List.replicate (([⟨"", 1 / 2, 3, 0, true, true, 1 / 2⟩,
               ⟨"", 1 / 2, 2, 2, true, false, 1 / 2⟩] : List Prediction).length - k) false ∧
      ((9 / 10 : ℚ) ≤ ((([⟨"", 1 / 2, 3, 0, true, true, 1 / 2⟩,
            ⟨"", 1 / 2, 2, 2, true, false, 1 / 2⟩] : List Prediction).map (·.prob)).take k).sum ∨
        k = ([⟨"", 1 / 2, 3, 0, true, true, 1 / 2⟩,
              ⟨"", 1 / 2, 2, 2, true, false, 1 / 2⟩] : List Prediction).length) ∧
      (∀ j, j + 1 < k →
        ((([⟨"", 1 / 2, 3, 0, true, true, 1 / 2⟩,
            ⟨"", 1 / 2, 2, 2, true, false, 1 / 2⟩] : List Prediction).map (·.prob)).take
              (j + 1)).sum < (9 / 10 : ℚ))) ∧
     ((1 : ℚ) ≤ 9 / 10 → ∀ p ∈ ([⟨"", 1 / 2, 3, 0, true, true, 1 / 2⟩,
        ⟨"", 1 / 2, 2, 2, true, false, 1 / 2⟩] : List Prediction), p.inNucleus = true)) := by
  have hE : ∀ x : ℚ, 0 < (fun _ : ℚ => (1 : ℚ)) x := fun x => one_pos
  have hres : computePredictionsQ (fun _ => 1) (fun _ => "") (1 / 2) [3, 1, 2] 1 2 (9 / 10)
      = some [⟨"", 1 / 2, 3, 0, true, true, 1 / 2⟩, ⟨"", 1 / 2, 2, 2, true, false, 1 / 2⟩] := by
    norm_num [computePredictionsQ, topItemsOf, indexedOf, sortIndexed, tempOf,
      List.insertionSort, List.orderedInsert, keyLE, softmaxPreds, samplePhase,
      markNucleus, renormStep, markSampled, markFirstNucleus, List.range_succ]
  exact ⟨hE, hres,
    C3_nucleus_prefix_of_result (fun _ => 1) (fun _ => "") (1 / 2) [3, 1, 2] 1 2 (9 / 10)
      _ hE hres⟩

/-- C4 counterexample: on the empty scores array the sampler reaches its
error state (`none` models the `TypeError` thrown at `topItems[0].val`)
instead of returning a result, so `computePredictions` does not
short-circuit on empty input. -/
theorem C4_counterexample :
    computePredictionsQ (fun _ => 1) (fun _ => "") 0 [] 1 10 (9 / 10) = none := by
  show (if (topItemsOf [] 1 10).isEmpty then none
    else some (samplePhase 0 (9 / 10) (softmaxPreds (fun _ => 1) (fun _ => "")
      (topItemsOf [] 1 10)))) = none
  rw [topItemsOf_nil]
  rfl

/-- C4 amended: `computePredictions` on an empty scores array reaches its
error state for every parameter choice (the `TypeError` at
`topItems[0].val`); the empty-input short-circuit lives in the app layer,
where `runPipeline` returns before invoking the pipeline when the trimmed
input text is empty. -/
theorem C4_amended_empty_input (E : ℚ → ℚ) (decode : ℕ → String) (r : ℚ)
    (temperature : ℚ) (topK : ℕ) (topP : ℚ) :
    computePredictionsQ E decode r [] temperature topK topP = none ∧
    (∀ b, runPipelineStarts "" b = false) := by
  constructor
  · show (if (topItemsOf [] temperature topK).isEmpty then none
      else some (samplePhase r topP (softmaxPreds E decode
        (topItemsOf [] temperature topK)))) = none
    rw [topItemsOf_nil]
    rfl
  · intro b
    rfl

/-! ### Claim C2: top-k selection, order and determinism -/

theorem sortIndexed_sorted (l : List Indexed) : List.Pairwise keyLE (sortIndexed l) :=
  List.sorted_insertionSort keyLE l

theorem indexedOf_mem {logits : List ℚ} {t : ℚ} {e : Indexed}
    (he : e ∈ indexedOf logits t) :
    e.idx < logits.length ∧ e.val = logits.getD e.idx 0 / t ∧
      e.rawLogit = logits.getD e.idx 0 := by
  simp only [indexedOf, List.mem_map, List.mem_range] at he
  obtain ⟨i, hi, rfl⟩ := he
  exact ⟨hi, rfl, rfl⟩

theorem indexedOf_map_idx (logits : List ℚ) (t : ℚ) :
    (indexedOf logits t).map (·.idx) = List.range logits.length := by
  rw [indexedOf, List.map_map]
  show List.map (fun i : ℕ => i) (List.range logits.length) = List.range logits.length
  simp

/-- Strict version of `keyLE`, which holds between any two distinct
positions of the sorted array because no two elements share an `idx`. -/
def keyLT (a b : Indexed) : Prop :=
  b.val < a.val ∨ (a.val = b.val ∧ a.idx < b.idx)

theorem pairwise_keyLT_of_sorted {l : List Indexed}
    (hs : List.Pairwise keyLE l) (hn : (l.map (·.idx)).Nodup) :
    List.Pairwise keyLT l := by
  have hne : List.Pairwise (fun a b : Indexed => a.idx ≠ b.idx) l :=
    List.pairwise_map.mp hn
  refine (hs.and hne).imp ?_
  rintro a b ⟨hle, hni⟩
  rcases hle with hv | ⟨he, hle⟩
  · exact Or.inl hv
  · exact Or.inr ⟨he, lt_of_le_of_ne hle hni⟩

theorem samplePhase_map_proj {α : Type} (g : Prediction → α)
    (hg1 : ∀ p, g (clearSampled p) = g p)
    (hg2 : ∀ p, g (clearNucProb p) = g p)
    (hg3 : ∀ p, g (clearNucleus p) = g p)
    (r topP : ℚ) (l : List Prediction) :
    (samplePhase r topP l).map g = l.map g := by
  have h2 := map_proj_eq clearSampled g hg1 (samplePhase_map_clearSampled r topP l)
  have h3 := map_proj_eq clearNucProb g hg2
    (renormStep_map_clearNucProb (markNucleus topP 0 l))
  have h4 := map_proj_eq clearNucleus g hg3 (markNucleus_map_clearNucleus topP 0 l)
  rw [h2, h3, h4]

theorem exists_preimage_of_map_eq {α : Type} {l₁ : List Prediction}
    {l₂ : List Indexed} {g : Prediction → α} {f : Indexed → α}
    (h : l₁.map g = l₂.map f) :
    ∀ p ∈ l₁, ∃ it ∈ l₂, f it = g p := by
  intro p hp
  have hm : g p ∈ l₂.map f := by
    rw [← h]
    exact List.mem_map_of_mem g hp
  obtain ⟨it, hit, he⟩ := List.mem_map.mp hm
  exact ⟨it, hit, he⟩

/-- C2 (amended: non-empty scores array): with a positive `topK`, on the
empty scores array `computePredictions` reaches its error state instead of
returning a list of length `min(topK, 0) = 0`, and on every non-empty
scores array it returns the `topK` candidates with the largest
temperature-scaled score, ordered by descending scaled score with ties
broken by original index ascending, deterministically; the returned list
has length `min(topK, |scores|)`, carries pairwise-distinct candidate ids
whose `logit` field is the raw score at that id, and every candidate not
retained scores strictly below every retained one in the
(scaled score, index) order. -/
theorem C2_topk_selection (E : ℚ → ℚ) (decode : ℕ → String) (r : ℚ)
    (logits : List ℚ) (temperature : ℚ) (topK : ℕ) (topP : ℚ)
    (hK : 1 ≤ topK) :
    (logits = [] →
      computePredictionsQ E decode r logits temperature topK topP = none) ∧
    (logits ≠ [] →
    ∃ preds, computePredictionsQ E decode r logits temperature topK topP = some preds ∧
      preds.length = min topK logits.length ∧
      (preds.map (·.tokenId)).Nodup ∧
      (∀ p ∈ preds, p.tokenId < logits.length ∧ p.logit = logits.getD p.tokenId 0) ∧
      List.Pairwise (fun p q : Prediction =>
        q.logit / tempOf temperature < p.logit / tempOf temperature ∨
        (p.logit / tempOf temperature = q.logit / tempOf temperature ∧
          p.tokenId < q.tokenId)) preds ∧
      (∀ j, j < logits.length → j ∉ preds.map (·.tokenId) →
        ∀ p ∈ preds,
          logits.getD j 0 / tempOf temperature < p.logit / tempOf temperature ∨
          (p.logit / tempOf temperature = logits.getD j 0 / tempOf temperature ∧
            p.tokenId < j))) := by
  constructor
  · intro h0
    subst h0
    show (if (topItemsOf [] temperature topK).isEmpty then none
      else some (samplePhase r topP (softmaxPreds E decode
        (topItemsOf [] temperature topK)))) = none
    rw [topItemsOf_nil]
    rfl
  intro hlogits
  set t := tempOf temperature with ht
  set S := sortIndexed (indexedOf logits t) with hS
  -- basic facts about the sorted array
  have hperm : S.Perm (indexedOf logits t) := sortIndexed_perm _
  have hSfact : ∀ e ∈ S, e.idx < logits.length ∧ e.val = logits.getD e.idx 0 / t ∧
      e.rawLogit = logits.getD e.idx 0 :=
    fun e he => indexedOf_mem (hperm.subset he)
  have hSnodup : (S.map (·.idx)).Nodup := by
    have hp2 : (S.map (·.idx)).Perm ((indexedOf logits t).map (·.idx)) :=
      hperm.map _
    rw [hp2.nodup_iff, indexedOf_map_idx]
    exact List.nodup_range logits.length
  have hSpair : List.Pairwise keyLT S :=
    pairwise_keyLT_of_sorted (sortIndexed_sorted _) hSnodup
  -- the non-empty top-k slice
  have htop : topItemsOf logits temperature topK = S.take topK := rfl
  have hlen : (topItemsOf logits temperature topK).length = min topK logits.length :=
    topItemsOf_length logits temperature topK
  have hpos : 0 < (topItemsOf logits temperature topK).length := by
    rw [hlen]
    have h0 : 0 < logits.length := List.length_pos.mpr hlogits
    omega
  have hne : topItemsOf logits temperature topK ≠ [] := by
    intro h0
    rw [h0] at hpos
    simp at hpos
  have hemp : (topItemsOf logits temperature topK).isEmpty = false := by
    cases hcase : topItemsOf logits temperature topK with
    | nil => exact absurd hcase hne
    | cons a l => rfl
  set sp := softmaxPreds E decode (topItemsOf logits temperature topK) with hsp
  set preds := samplePhase r topP sp with hpreds
  refine ⟨preds, ?_, ?_, ?_, ?_, ?_, ?_⟩
  · show (if (topItemsOf logits temperature topK).isEmpty then none
      else some (samplePhase r topP (softmaxPreds E decode
        (topItemsOf logits temperature topK)))) = some preds
    rw [hemp]
    rfl
  all_goals {
    have hpair : preds.map (fun p => (p.logit, p.tokenId))
        = (topItemsOf logits temperature topK).map (fun it => (it.rawLogit, it.idx)) := by
      have h1 : preds.map (fun p => (p.logit, p.tokenId))
          = sp.map (fun p => (p.logit, p.tokenId)) :=
        samplePhase_map_proj (fun p => (p.logit, p.tokenId))
          (fun _ => rfl) (fun _ => rfl) (fun _ => rfl) r topP sp
      have h2 : sp.map (fun p => (p.logit, p.tokenId))
          = (topItemsOf logits temperature topK).map (fun it => (it.rawLogit, it.idx)) := by
        rw [hsp]
        simp [softmaxPreds, List.map_map]
      rw [h1, h2]
    have hids : preds.map (·.tokenId)
        = (topItemsOf logits temperature topK).map (·.idx) := by
      have := congrArg (List.map Prod.snd) hpair
      simpa [List.map_map, Function.comp] using this
    have hmemfact : ∀ p ∈ preds, ∃ it ∈ topItemsOf logits temperature topK,
        it.rawLogit = p.logit ∧ it.idx = p.tokenId := by
      intro p hp
      obtain ⟨it, hit, he⟩ := exists_preimage_of_map_eq hpair p hp
      exact ⟨it, hit, congrArg Prod.fst he, congrArg Prod.snd he⟩
    first
    | -- length
      (have h1 := congrArg List.length hids
       simp only [List.length_map] at h1
       rw [h1, hlen])
    | -- nodup ids
      (rw [hids, htop, List.map_take]
       exact (List.take_sublist topK (S.map (·.idx))).nodup hSnodup)
    | -- membership facts
      (intro p hp
       obtain ⟨it, hit, hl, hi⟩ := hmemfact p hp
       have hf := hSfact it (List.take_subset topK S (htop ▸ hit))
       rw [← hi, ← hl]
       exact ⟨hf.1, hf.2.2⟩)
    | -- pairwise descending
      (have htpair : List.Pairwise keyLT (topItemsOf logits temperature topK) := by
        rw [htop]
        exact hSpair.sublist (List.take_sublist topK S)
       have htpair2 : List.Pairwise
           (fun x y : ℚ × ℕ => y.1 / t < x.1 / t ∨ (x.1 / t = y.1 / t ∧ x.2 < y.2))
           ((topItemsOf logits temperature topK).map (fun it => (it.rawLogit, it.idx))) := by
        rw [List.pairwise_map]
        refine htpair.imp_of_mem ?_
        intro a b ha hb hlt
        have hfa := hSfact a (List.take_subset topK S (htop ▸ ha))
        have hfb := hSfact b (List.take_subset topK S (htop ▸ hb))
        have hva : a.val = a.rawLogit / t := by rw [hfa.2.1, hfa.2.2]
        have hvb : b.val = b.rawLogit / t := by rw [hfb.2.1, hfb.2.2]
        rcases hlt with hv | ⟨he, hi⟩
        · left
          rw [← hva, ← hvb]
          exact hv
        · right
          constructor
          · rw [← hva, ← hvb]
            exact he
          · exact hi
       have := htpair2
       rw [← hpair] at this
       rw [List.pairwise_map] at this
       exact this)
    | -- dominance over dropped candidates
      (intro j hj hnot p hp
       have hej : (⟨logits.getD j 0 / t, logits.getD j 0, j⟩ : Indexed)
           ∈ indexedOf logits t := by
         simp only [indexedOf, List.mem_map, List.mem_range]
         exact ⟨j, hj, rfl⟩
       have hejS : (⟨logits.getD j 0 / t, logits.getD j 0, j⟩ : Indexed) ∈ S :=
         hperm.mem_iff.mpr hej
       have hsplit := List.take_append_drop topK S
       have hejdrop : (⟨logits.getD j 0 / t, logits.getD j 0, j⟩ : Indexed)
           ∈ S.drop topK := by
         rcases (List.mem_append.mp (by rw [hsplit]; exact hejS)) with hin | hin
         · exfalso
           apply hnot
           rw [hids, htop]
           have : (⟨logits.getD j 0 / t, logits.getD j 0, j⟩ : Indexed).idx
               ∈ (S.take topK).map (·.idx) := List.mem_map_of_mem _ hin
           exact this
         · exact hin
       have hcross : ∀ a ∈ S.take topK, ∀ b ∈ S.drop topK, keyLT a b := by
         have hp2 : List.Pairwise keyLT (S.take topK ++ S.drop topK) := by
           rw [hsplit]
           exact hSpair
         exact (List.pairwise_append.mp hp2).2.2
       obtain ⟨it, hit, hl, hi⟩ := hmemfact p hp
       have hfit := hSfact it (List.take_subset topK S (htop ▸ hit))
       have hva : it.val = it.rawLogit / t := by rw [hfit.2.1, hfit.2.2]
       have hkey := hcross it (htop ▸ hit) _ hejdrop
       rcases hkey with hv | ⟨he, hidx⟩
       · left
         rw [← hl]
         rw [hva] at hv
         exact hv
       · right
         constructor
         · rw [← hl]
           rw [hva] at he
           exact he.symm ▸ rfl
         · rw [← hi]
           exact hidx) }

/-- C2 counterexample: on the empty scores array (with a positive `topK`)
`computePredictions` reaches its error state — no list of length
`min(topK, 0) = 0` is returned, so the claim fails for the empty array. -/
theorem C2_counterexample :
    computePredictionsQ (fun _ => 1) (fun _ => "") 0 [] 1 5 (9 / 10) = none ∧
    ¬ ∃ preds, computePredictionsQ (fun _ => 1) (fun _ => "") 0 [] 1 5 (9 / 10)
        = some preds ∧ preds.length = min 5 ([] : List ℚ).length := by
  have h : computePredictionsQ (fun _ => 1) (fun _ => "") 0 [] 1 5 (9 / 10) = none := by
    show (if (topItemsOf [] 1 5).isEmpty then none
      else some (samplePhase 0 (9 / 10) (softmaxPreds (fun _ => 1) (fun _ => "")
        (topItemsOf [] 1 5)))) = none
    rw [topItemsOf_nil]
    rfl
  refine ⟨h, ?_⟩
  rintro ⟨preds, hsome, _⟩
  rw [h] at hsome
  exact Option.noConfusion hsome

/-- C2 witness: the amended theorem applied at scores `[3, 1, 2]`,
topK 2, exercising the non-empty branch. -/
theorem C2_witness :
    (1 ≤ 2 ∧ ([3, 1, 2] : List ℚ) ≠ []) ∧
    ∃ preds, computePredictionsQ (fun _ => 1) (fun _ => "") (1 / 2) [3, 1, 2] 1 2 (9 / 10)
        = some preds ∧ preds.length = min 2 ([3, 1, 2] : List ℚ).length := by
  refine ⟨⟨by norm_num, by simp⟩, ?_⟩
  obtain ⟨preds, h1, h2, _⟩ := (C2_topk_selection (fun _ => 1) (fun _ => "") (1 / 2)
    [3, 1, 2] 1 2 (9 / 10) (by norm_num)).2 (by simp)
  exact ⟨preds, h1, h2⟩

/-! ### Claim C8: hit-testing -/

theorem dist_sq_large (dx dy bnd : ℚ) (hb : 0 ≤ bnd)
    (h : bnd ≤ dx ∨ dx ≤ -bnd) :
    bnd * bnd ≤ dx * dx + dy * dy := by
  have hdy : 0 ≤ dy * dy := mul_self_nonneg dy
  rcases h with h | h
  · nlinarith
  · nlinarith

theorem firstHitFrom_none (mx my r2 : ℚ) : ∀ (pts : List Point) (k : ℕ),
    (∀ q ∈ pts, ¬ ((mx - q.x) * (mx - q.x) + (my - q.y) * (my - q.y) < r2)) →
    firstHitFrom mx my r2 pts k = none
  | [], _, _ => rfl
  | q :: qs, k, hall => by
    have h := hall q (List.mem_cons_self q qs)
    simp only [firstHitFrom, if_neg h]
    exact firstHitFrom_none mx my r2 qs (k + 1)
      (fun u hu => hall u (List.mem_cons_of_mem q hu))

theorem firstHitFrom_some (mx my r2 : ℚ) :
    ∀ (pts : List Point) (k i : ℕ) (p : Point),
    pts[i]? = some p →
    ((mx - p.x) * (mx - p.x) + (my - p.y) * (my - p.y) < r2) →
    (∀ j q, j < i → pts[j]? = some q →
      ¬ ((mx - q.x) * (mx - q.x) + (my - q.y) * (my - q.y) < r2)) →
    firstHitFrom mx my r2 pts k = some (k + i)
  | [], _, i, p, hp, _, _ => by simp at hp
  | q :: qs, k, 0, p, hp, hhit, _ => by
    obtain rfl : q = p := by simpa using hp
    simp only [firstHitFrom, if_pos hhit, Nat.add_zero]
  | q :: qs, k, i + 1, p, hp, hhit, hmin => by
    have h0 : ¬ ((mx - q.x) * (mx - q.x) + (my - q.y) * (my - q.y) < r2) :=
      hmin 0 q (Nat.succ_pos i) (by simp)
    simp only [firstHitFrom, if_neg h0]
    have hrec := firstHitFrom_some mx my r2 qs (k + 1) i p
      (by simpa using hp) hhit
      (fun j u hj hu => hmin (j + 1) u (Nat.succ_lt_succ hj) (by simpa using hu))
    rw [hrec]
    have harith : k + 1 + i = k + (i + 1) := by omega
    rw [harith]

theorem findNodeFrom_none (mx my : ℚ) : ∀ (cols : List (List Point)) (c : ℕ),
    (∀ col ∈ cols, ∀ q ∈ col,
      ¬ ((mx - q.x) * (mx - q.x) + (my - q.y) * (my - q.y) < 100)) →
    findNodeFrom mx my cols c = none
  | [], _, _ => rfl
  | col :: rest, c, hall => by
    have h1 : firstHitFrom mx my 100 col 0 = none :=
      firstHitFrom_none mx my 100 col 0 (hall col (List.mem_cons_self _ _))
    simp only [findNodeFrom, h1]
    exact findNodeFrom_none mx my rest (c + 1)
      (fun u hu => hall u (List.mem_cons_of_mem _ hu))

theorem findNodeFrom_some (mx my : ℚ) :
    ∀ (cols : List (List Point)) (k c i : ℕ) (col : List Point),
    cols[c]? = some col →
    firstHitFrom mx my 100 col 0 = some i →
    (∀ c' col', c' < c → cols[c']? = some col' →
      ∀ q ∈ col', ¬ ((mx - q.x) * (mx - q.x) + (my - q.y) * (my - q.y) < 100)) →
    findNodeFrom mx my cols k = some (.node (k + c) i)
  | [], _, c, _, col, hc, _, _ => by simp at hc
  | col0 :: rest, k, 0, i, col, hc, hhit, _ => by
    obtain rfl : col0 = col := by simpa using hc
    simp only [findNodeFrom, hhit, Nat.add_zero]
  | col0 :: rest, k, c + 1, i, col, hc, hhit, hmin => by
    have h0 : firstHitFrom mx my 100 col0 0 = none :=
      firstHitFrom_none mx my 100 col0 0
        (hmin 0 col0 (Nat.succ_pos c) (by simp))
    simp only [findNodeFrom, h0]
    have hrec := findNodeFrom_some mx my rest (k + 1) c i col
      (by simpa using hc) hhit
      (fun c' col' hc' hcol' =>
        hmin (c' + 1) col' (Nat.succ_lt_succ hc') (by simpa using hcol'))
    rw [hrec]
    have harith : k + 1 + c = k + (c + 1) := by omega
    rw [harith]

theorem logitGap_ge (n m : ℕ) : 22 ≤ logitGap n m := le_max_left _ _

theorem mkCol_getElem (x : ℚ) (count : ℕ) (gap : ℚ) (i : ℕ) :
    (mkCol x count gap)[i]? =
      if i < count then some ⟨x, 80 + (i : ℚ) * gap⟩ else none := by
  by_cases h : i < count
  · rw [if_pos h, mkCol, List.getElem?_map, List.getElem?_range h]
    rfl
  · rw [if_neg h, mkCol, List.getElem?_map]
    have hn : (List.range count)[i]? = none := by
      rw [List.getElem?_eq_none]
      simpa using Nat.le_of_not_lt h
    rw [hn]
    rfl

theorem mkCol_mem {x : ℚ} {count : ℕ} {gap : ℚ} {q : Point}
    (hq : q ∈ mkCol x count gap) :
    ∃ j, j < count ∧ q = ⟨x, 80 + (j : ℚ) * gap⟩ := by
  simp only [mkCol, List.mem_map, List.mem_range] at hq
  obtain ⟨j, hj, rfl⟩ := hq
  exact ⟨j, hj, rfl⟩

theorem buildBars_mem {n L m : ℕ} {q : Point} (hq : q ∈ buildBars n L m) :
    ∃ j, j < m ∧ q = ⟨320 + 70 * (L : ℚ), 80 + (j : ℚ) * logitGap n m⟩ := by
  simp only [buildBars, List.mem_map, List.mem_range] at hq
  obtain ⟨j, hj, rfl⟩ := hq
  exact ⟨j, hj, rfl⟩

theorem buildColumns_getElem (n L m : ℕ) : ∀ c : ℕ,
    (buildColumns n L m)[c]? =
      if c < L + 3 then
        some (mkCol (100 + 70 * (c : ℚ)) (if c = L + 2 then m else n)
          (if c = L + 2 then logitGap n m else 36))
      else none
  | 0 => by
    rw [if_pos (by omega), if_neg (by omega), if_neg (by omega)]
    simp only [buildColumns, List.getElem?_cons_zero]
    norm_num
  | 1 => by
    rw [if_pos (by omega), if_neg (by omega), if_neg (by omega)]
    simp only [buildColumns, List.getElem?_cons_succ, List.getElem?_cons_zero]
    norm_num
  | c + 2 => by
    have hlen : ((List.range L).map fun l : ℕ =>
        mkCol (240 + 70 * (l : ℚ)) n 36).length = L := by
      simp
    have hstep : (buildColumns n L m)[c + 2]? =
        (((List.range L).map fun l : ℕ => mkCol (240 + 70 * (l : ℚ)) n 36) ++
          [mkCol (240 + 70 * (L : ℚ)) m (logitGap n m)])[c]? := by
      simp only [buildColumns, List.getElem?_cons_succ]
    rw [hstep, List.getElem?_append, hlen]
    by_cases hc : c < L
    · rw [if_pos hc, List.getElem?_map, List.getElem?_range hc,
        if_pos (by omega), if_neg (by omega), if_neg (by omega)]
      have harg : (100 : ℚ) + 70 * ((c + 2 : ℕ) : ℚ) = 240 + 70 * (c : ℚ) := by
        push_cast
        ring
      rw [harg]
      rfl
    · rw [if_neg hc]
      by_cases hcL : c = L
      · subst hcL
        rw [Nat.sub_self]
        rw [if_pos (by omega), if_pos rfl, if_pos rfl]
        have harg : (100 : ℚ) + 70 * ((c + 2 : ℕ) : ℚ) = 240 + 70 * (c : ℚ) := by
          push_cast
          ring
        rw [harg]
        rfl
      · have hgt : L < c := by omega
        rw [if_neg (by omega)]
        rw [List.getElem?_eq_none]
        simp
        omega

theorem buildColumns_col {n L m : ℕ} {col : List Point} {c : ℕ}
    (hc : (buildColumns n L m)[c]? = some col) :
    c < L + 3 ∧ col = mkCol (100 + 70 * (c : ℚ)) (if c = L + 2 then m else n)
      (if c = L + 2 then logitGap n m else 36) := by
  rw [buildColumns_getElem] at hc
  by_cases h : c < L + 3
  · rw [if_pos h] at hc
    exact ⟨h, (Option.some.inj hc).symm⟩
  · rw [if_neg h] at hc
    exact Option.noConfusion hc

theorem nodeAt_buildScene {n L m c i : ℕ} {p : Point}
    (hp : nodeAt (buildScene n L m) c i = some p) :
    c < L + 3 ∧ i < (if c = L + 2 then m else n) ∧
      p = ⟨100 + 70 * (c : ℚ),
        80 + (i : ℚ) * (if c = L + 2 then logitGap n m else 36)⟩ := by
  unfold nodeAt at hp
  have hcols : (buildScene n L m).columns = buildColumns n L m := rfl
  rw [hcols, buildColumns_getElem] at hp
  by_cases h : c < L + 3
  · rw [if_pos h] at hp
    simp only [Option.some_bind] at hp
    rw [mkCol_getElem] at hp
    by_cases hi : i < (if c = L + 2 then m else n)
    · rw [if_pos hi] at hp
      exact ⟨h, hi, (Option.some.inj hp).symm⟩
    · rw [if_neg hi] at hp
      exact Option.noConfusion hp
  · rw [if_neg h] at hp
    exact Option.noConfusion hp

theorem hitTest_eq (s : Scene) (mx my : ℚ) :
    hitTest s mx my = match firstHitFrom mx my 64 s.bars 0 with
      | some i => some (.bar i)
      | none => findNodeFrom mx my s.columns 0 := rfl

/-- C8: hit-testing on pointer move tests output bars first (fixed squared
radius 64), then nodes in column order (squared radius 100, slightly above
the drawn radius 6), first hit wins; on every scene produced by `build`, a
pointer exactly at the node of column `c`, row `i` resolves to that node,
and a pointer at least the hit radius away from every bar and node
resolves to no hit. -/
theorem C8_hit_testing (n L m c i : ℕ) (p : Point) (mx my : ℚ) (s : Scene)
    (hs : s = buildScene n L m)
    (hp : nodeAt s c i = some p)
    (hbars : ∀ q ∈ s.bars, 64 ≤ (mx - q.x) * (mx - q.x) + (my - q.y) * (my - q.y))
    (hnodes : ∀ col ∈ s.columns, ∀ q ∈ col,
      100 ≤ (mx - q.x) * (mx - q.x) + (my - q.y) * (my - q.y)) :
    hitTest s p.x p.y = some (Hit.node c i) ∧ hitTest s mx my = none := by
  subst hs
  obtain ⟨hcL, hicnt, hppos⟩ := nodeAt_buildScene hp
  have hcle : (c : ℚ) ≤ (L : ℚ) + 2 := by
    exact_mod_cast (by omega : c ≤ L + 2)
  have hpx : p.x = 100 + 70 * (c : ℚ) := by rw [hppos]
  have hpy : p.y = 80 + (i : ℚ) * (if c = L + 2 then logitGap n m else 36) := by
    rw [hppos]
  have hgap : 22 ≤ (if c = L + 2 then logitGap n m else 36) := by
    by_cases hcc : c = L + 2
    · rw [if_pos hcc]
      exact logitGap_ge n m
    · rw [if_neg hcc]
      norm_num
  constructor
  · -- part 1: pointer at the node centre resolves to that node
    have hbarmiss : firstHitFrom p.x p.y 64 (buildScene n L m).bars 0 = none := by
      apply firstHitFrom_none
      intro q hq
      obtain ⟨j, hj, rfl⟩ := buildBars_mem hq
      have hdx : p.x - (320 + 70 * (L : ℚ)) ≤ -80 := by
        rw [hpx]
        linarith
      have h64 : (64 : ℚ) ≤ (p.x - (320 + 70 * (L : ℚ))) * (p.x - (320 + 70 * (L : ℚ)))
          + (p.y - (80 + (j : ℚ) * logitGap n m)) * (p.y - (80 + (j : ℚ) * logitGap n m)) := by
        have h80 : (80 : ℚ) * 80 ≤ (p.x - (320 + 70 * (L : ℚ))) * (p.x - (320 + 70 * (L : ℚ)))
            + (p.y - (80 + (j : ℚ) * logitGap n m)) * (p.y - (80 + (j : ℚ) * logitGap n m)) :=
          dist_sq_large (p.x - (320 + 70 * (L : ℚ))) (p.y - (80 + (j : ℚ) * logitGap n m))
            80 (by norm_num) (Or.inr hdx)
        linarith
      exact not_lt_of_le h64
    have hcolc : (buildColumns n L m)[c]? =
        some (mkCol (100 + 70 * (c : ℚ)) (if c = L + 2 then m else n)
          (if c = L + 2 then logitGap n m else 36)) := by
      rw [buildColumns_getElem, if_pos hcL]
    have hhitc : firstHitFrom p.x p.y 100
        (mkCol (100 + 70 * (c : ℚ)) (if c = L + 2 then m else n)
          (if c = L + 2 then logitGap n m else 36)) 0 = some i := by
      have h := firstHitFrom_some p.x p.y 100
        (mkCol (100 + 70 * (c : ℚ)) (if c = L + 2 then m else n)
          (if c = L + 2 then logitGap n m else 36)) 0 i p
        (by rw [mkCol_getElem, if_pos hicnt, hppos])
        (by
          have hz : p.x - p.x = 0 ∧ p.y - p.y = 0 := ⟨sub_self _, sub_self _⟩
          rw [hz.1, hz.2]
          norm_num)
        (by
          intro j q hj hq
          rw [mkCol_getElem] at hq
          by_cases hjc : j < (if c = L + 2 then m else n)
          · rw [if_pos hjc] at hq
            obtain rfl := Option.some.inj hq.symm
            have hji : (j : ℚ) + 1 ≤ (i : ℚ) := by
              exact_mod_cast (by omega : j + 1 ≤ i)
            have hdy : 22 ≤ p.y - (80 + (j : ℚ) * (if c = L + 2 then logitGap n m else 36)) := by
              rw [hpy]
              have hdiff : ((i : ℚ) - (j : ℚ)) * (if c = L + 2 then logitGap n m else 36)
                  = (80 + (i : ℚ) * (if c = L + 2 then logitGap n m else 36))
                    - (80 + (j : ℚ) * (if c = L + 2 then logitGap n m else 36)) := by
                ring
              nlinarith
            have h100 : (100 : ℚ) ≤ (p.x - (100 + 70 * (c : ℚ))) * (p.x - (100 + 70 * (c : ℚ)))
                + (p.y - (80 + (j : ℚ) * (if c = L + 2 then logitGap n m else 36)))
                  * (p.y - (80 + (j : ℚ) * (if c = L + 2 then logitGap n m else 36))) := by
              have h22 := dist_sq_large
                (p.y - (80 + (j : ℚ) * (if c = L + 2 then logitGap n m else 36)))
                (p.x - (100 + 70 * (c : ℚ))) 22 (show (0 : ℚ) ≤ 22 by norm_num)
                (Or.inl hdy)
              have hswap : (p.y - (80 + (j : ℚ) * (if c = L + 2 then logitGap n m else 36)))
                    * (p.y - (80 + (j : ℚ) * (if c = L + 2 then logitGap n m else 36)))
                  + (p.x - (100 + 70 * (c : ℚ))) * (p.x - (100 + 70 * (c : ℚ)))
                  = (p.x - (100 + 70 * (c : ℚ))) * (p.x - (100 + 70 * (c : ℚ)))
                  + (p.y - (80 + (j : ℚ) * (if c = L + 2 then logitGap n m else 36)))
                    * (p.y - (80 + (j : ℚ) * (if c = L + 2 then logitGap n m else 36))) := by
                ring
              rw [← hswap]
              linarith
            exact not_lt_of_le h100
          · rw [if_neg hjc] at hq
            exact Option.noConfusion hq)
      simpa using h
    have hearlier : ∀ c' col', c' < c → (buildColumns n L m)[c']? = some col' →
        ∀ q ∈ col', ¬ ((p.x - q.x) * (p.x - q.x) + (p.y - q.y) * (p.y - q.y) < 100) := by
      intro c' col' hc' hcol' q hq
      obtain ⟨_, rfl⟩ := buildColumns_col hcol'
      obtain ⟨j, hj, rfl⟩ := mkCol_mem hq
      have hcc : (c' : ℚ) + 1 ≤ (c : ℚ) := by
        exact_mod_cast (by omega : c' + 1 ≤ c)
      have hdx : 70 ≤ p.x - (100 + 70 * (c' : ℚ)) := by
        rw [hpx]
        linarith
      have h100 : (100 : ℚ) ≤ (p.x - (100 + 70 * (c' : ℚ))) * (p.x - (100 + 70 * (c' : ℚ)))
          + (p.y - (80 + (j : ℚ) * (if c' = L + 2 then logitGap n m else 36)))
            * (p.y - (80 + (j : ℚ) * (if c' = L + 2 then logitGap n m else 36))) := by
        have h70 := dist_sq_large (p.x - (100 + 70 * (c' : ℚ)))
          (p.y - (80 + (j : ℚ) * (if c' = L + 2 then logitGap n m else 36))) 70
          (show (0 : ℚ) ≤ 70 by norm_num) (Or.inl hdx)
        linarith
      exact not_lt_of_le h100
    have hfind := findNodeFrom_some p.x p.y (buildColumns n L m) 0 c i
      (mkCol (100 + 70 * (c : ℚ)) (if c = L + 2 then m else n)
        (if c = L + 2 then logitGap n m else 36)) hcolc hhitc hearlier
    rw [hitTest_eq]
    have hbars2 : firstHitFrom p.x p.y 64 (buildScene n L m).bars 0 = none := hbarmiss
    rw [hbars2]
    simpa using hfind
  · -- part 2: a pointer far from everything resolves to no hit
    rw [hitTest_eq]
    have hb : firstHitFrom mx my 64 (buildScene n L m).bars 0 = none := by
      apply firstHitFrom_none
      intro q hq
      exact not_lt_of_le (hbars q hq)
    rw [hb]
    exact findNodeFrom_none mx my (buildScene n L m).columns 0
      (fun col hcol q hq => not_lt_of_le (hnodes col hcol q hq))

/-- C8 witness: in the scene built for one token, zero layers and one
prediction, the pointer at the token node centre `(100, 80)` resolves to
that node, and the pointer at the origin, which is far from every node and
bar, resolves to no hit. -/
theorem C8_witness :
    nodeAt (buildScene 1 0 1) 0 0 = some ⟨100, 80⟩ ∧
    hitTest (buildScene 1 0 1) 100 80 = some (Hit.node 0 0) ∧
    hitTest (buildScene 1 0 1) 0 0 = none := by
  have hp : nodeAt (buildScene 1 0 1) 0 0 = some ⟨100, 80⟩ := by
    norm_num [nodeAt, buildScene, buildColumns, mkCol, List.range_succ]
  have hbars : ∀ q ∈ (buildScene 1 0 1).bars,
      (64 : ℚ) ≤ (0 - q.x) * (0 - q.x) + (0 - q.y) * (0 - q.y) := by
    intro q hq
    obtain ⟨j, hj, rfl⟩ := buildBars_mem hq
    interval_cases j
    norm_num [logitGap]
  have hnodes : ∀ col ∈ (buildScene 1 0 1).columns, ∀ q ∈ col,
      (100 : ℚ) ≤ (0 - q.x) * (0 - q.x) + (0 - q.y) * (0 - q.y) := by
    intro col hcol q hq
    have hcol2 : col ∈ buildColumns 1 0 1 := hcol
    simp only [buildColumns, List.range_zero, List.map_nil, List.nil_append,
      List.mem_cons, List.not_mem_nil, or_false] at hcol2
    rcases hcol2 with rfl | rfl | rfl <;>
      (obtain ⟨j, hj, rfl⟩ := mkCol_mem hq
       interval_cases j <;> norm_num [logitGap])
  have h := C8_hit_testing 1 0 1 0 0 ⟨100, 80⟩ 0 0 (buildScene 1 0 1) rfl hp hbars hnodes
  exact ⟨hp, by simpa using h.1, h.2⟩

/-! ### Claim C9: the partial update path -/

theorem updateNodes_eq (fmt2 : ℚ → String) :
    ∀ (preds : List Prediction) (ns : List VNode),
    updateNodes fmt2 preds ns
      = List.zipWith (patchNode fmt2) preds ns ++ ns.drop preds.length
  | [], [] => rfl
  | _ :: _, [] => by simp [updateNodes]
  | [], _ :: _ => by simp [updateNodes]
  | p :: ps, nd :: ns => by
    simp only [updateNodes, List.zipWith_cons_cons, List.length_cons,
      List.drop_succ_cons, List.cons_append]
    rw [updateNodes_eq fmt2 ps ns]

theorem updateBars_eq :
    ∀ (i : ℕ) (preds : List Prediction) (bs : List VBar),
    updateBars i preds bs
      = List.zipWith (fun pj b => patchBar pj.2 pj.1 b) (preds.enumFrom i) bs
        ++ bs.drop preds.length
  | _, [], [] => rfl
  | _, _ :: _, [] => by simp [updateBars]
  | _, [], _ :: _ => by simp [updateBars]
  | i, p :: ps, b :: bs => by
    simp only [updateBars, List.enumFrom, List.zipWith_cons_cons, List.length_cons,
      List.drop_succ_cons, List.cons_append]
    rw [updateBars_eq (i + 1) ps bs]

theorem updateNodes_positions (fmt2 : ℚ → String) :
    ∀ (preds : List Prediction) (ns : List VNode),
    (updateNodes fmt2 preds ns).map (fun nd => (nd.x, nd.y))
      = ns.map fun nd => (nd.x, nd.y)
  | [], [] => rfl
  | _ :: _, [] => by simp [updateNodes]
  | [], _ :: _ => by simp [updateNodes]
  | p :: ps, nd :: ns => by
    simp only [updateNodes, List.map_cons]
    rw [updateNodes_positions fmt2 ps ns]
    rfl

theorem updateBars_positions :
    ∀ (i : ℕ) (preds : List Prediction) (bs : List VBar),
    (updateBars i preds bs).map (fun b => (b.x, b.y)) = bs.map fun b => (b.x, b.y)
  | _, [], [] => rfl
  | _, _ :: _, [] => by simp [updateBars]
  | _, [], _ :: _ => by simp [updateBars]
  | i, p :: ps, b :: bs => by
    simp only [updateBars, List.map_cons]
    rw [updateBars_positions (i + 1) ps bs]
    rfl

theorem patchLogitColumns_structure (fmt2 : ℚ → String) (preds : List Prediction) :
    ∀ cols : List VColumn,
    (patchLogitColumns fmt2 preds cols).map
        (fun c => (c.kind, c.nodes.map fun nd => (nd.x, nd.y)))
      = cols.map fun c => (c.kind, c.nodes.map fun nd => (nd.x, nd.y))
  | [] => rfl
  | col :: rest => by
    by_cases h : col.kind = ColKind.logit
    · simp only [patchLogitColumns, if_pos h, List.map_cons]
      rw [updateNodes_positions fmt2 preds col.nodes]
    · simp only [patchLogitColumns, if_neg h, List.map_cons]
      rw [patchLogitColumns_structure fmt2 preds rest]

/-- C9 counterexample: `updatePredictions` also rewrites the `isWinner`
flag of every patched bar (to `index == 0`), a field outside the claimed
label/probability/word/logit/nucleus/sampled set: in a scene whose second
bar starts with `isWinner = true` and first bar with `isWinner = false`,
updating with two predictions flips both flags. -/
theorem C9_counterexample :
    ((updatePredictionsV (fun _ => "")
        [⟨"a", 1, 1, 0, true, true, 1⟩, ⟨"b", 0, 0, 1, false, false, 0⟩]
        ⟨[⟨ColKind.logit, []⟩],
         [⟨0, 0, "w0", 0, 0, false, false, 0, false⟩,
          ⟨0, 36, "w1", 0, 0, false, false, 0, true⟩]⟩).bars.map (·.isWinner))
      = [true, false] ∧
    (([⟨0, 0, "w0", 0, 0, false, false, 0, false⟩,
       ⟨0, 36, "w1", 0, 0, false, false, 0, true⟩] : List VBar).map (·.isWinner))
      = [false, true] :=
  ⟨rfl, rfl⟩

/-- C9 amended: `updatePredictions` patches only the
label/probability/word/logit/nucleus/sampled payload fields of existing
logit nodes and output bars, matched by index, and additionally recomputes
each patched bar's `isWinner` flag to `index == 0`; no node position
changes, no node or bar count change, and no column structure change;
extra predictions beyond the existing count are ignored, and when the
prediction list is shorter the trailing nodes and bars keep their previous
data (the `zipWith ++ drop` equations capture the patch-by-index,
extra-ignored and stale-tail behaviour exactly). -/
theorem C9_amended_partial_update (fmt2 : ℚ → String) (preds : List Prediction)
    (s : VScene) :
    ((updatePredictionsV fmt2 preds s).columns.map
        (fun c => (c.kind, c.nodes.map fun nd => (nd.x, nd.y)))
      = s.columns.map fun c => (c.kind, c.nodes.map fun nd => (nd.x, nd.y))) ∧
    ((updatePredictionsV fmt2 preds s).bars.map (fun b => (b.x, b.y))
      = s.bars.map fun b => (b.x, b.y)) ∧
    (∀ ns, updateNodes fmt2 preds ns
      = List.zipWith (patchNode fmt2) preds ns ++ ns.drop preds.length) ∧
    (∀ bs, updateBars 0 preds bs
      = List.zipWith (fun pj b => patchBar pj.2 pj.1 b) (preds.enumFrom 0) bs
        ++ bs.drop preds.length) := by
  refine ⟨?_, ?_, fun ns => updateNodes_eq fmt2 preds ns,
    fun bs => updateBars_eq 0 preds bs⟩
  · unfold updatePredictionsV
    by_cases h : s.columns.isEmpty
    · rw [if_pos h]
    · rw [if_neg h]
      exact patchLogitColumns_structure fmt2 preds s.columns
  · unfold updatePredictionsV
    by_cases h : s.columns.isEmpty
    · rw [if_pos h]
    · rw [if_neg h]
      exact updateBars_positions 0 preds s.bars

/-! ### Claim C10: no mutation of the logits array -/

theorem heapWrite_length (h : Heap) (ref i : ℕ) (v : ℚ) :
    (heapWrite h ref i v).length = h.length := by
  simp [heapWrite]

theorem heapRead_heapWrite_ne (h : Heap) {ref ref' : ℕ} (i : ℕ) (v : ℚ)
    (hne : ref' ≠ ref) :
    heapRead (heapWrite h ref i v) ref' = heapRead h ref' := by
  unfold heapRead heapWrite
  rw [List.getD_eq_getElem?_getD, List.getElem?_set_ne (fun he => hne he.symm),
    ← List.getD_eq_getElem?_getD]

theorem heapRead_heapWrite_same (h : Heap) (ref i : ℕ) (v : ℚ)
    (href : ref < h.length) :
    heapRead (heapWrite h ref i v) ref = (heapRead h ref).set i v := by
  unfold heapRead heapWrite
  rw [List.getD_eq_getElem?_getD, List.getElem?_set_self href]
  rfl

theorem scaleLoop_length (src dst : ℕ) (t : ℚ) :
    ∀ (cnt i : ℕ) (h : Heap), (scaleLoop src dst t i cnt h).length = h.length
  | 0, _, _ => rfl
  | cnt + 1, i, h => by
    show (scaleLoop src dst t (i + 1) cnt
      (heapWrite h dst i ((heapRead h src).getD i 0 / t))).length = h.length
    rw [scaleLoop_length src dst t cnt (i + 1) _, heapWrite_length]

theorem scaleLoop_read_ne (src dst ref : ℕ) (t : ℚ) (hne : ref ≠ dst) :
    ∀ (cnt i : ℕ) (h : Heap),
    heapRead (scaleLoop src dst t i cnt h) ref = heapRead h ref
  | 0, _, _ => rfl
  | cnt + 1, i, h => by
    show heapRead (scaleLoop src dst t (i + 1) cnt
      (heapWrite h dst i ((heapRead h src).getD i 0 / t))) ref = heapRead h ref
    rw [scaleLoop_read_ne src dst ref t hne cnt (i + 1) _,
      heapRead_heapWrite_ne h i _ hne]

theorem scaleLoop_read_dst_lt (src dst : ℕ) (t : ℚ) :
    ∀ (cnt i : ℕ) (h : Heap), dst < h.length → ∀ j, j < i →
    (heapRead (scaleLoop src dst t i cnt h) dst).getD j 0
      = (heapRead h dst).getD j 0
  | 0, _, _ => fun _ _ _ => rfl
  | cnt + 1, i, h => fun hdst j hj => by
    show (heapRead (scaleLoop src dst t (i + 1) cnt
        (heapWrite h dst i ((heapRead h src).getD i 0 / t))) dst).getD j 0
      = (heapRead h dst).getD j 0
    have hdst2 : dst < (heapWrite h dst i ((heapRead h src).getD i 0 / t)).length := by
      rw [heapWrite_length]
      exact hdst
    rw [scaleLoop_read_dst_lt src dst t cnt (i + 1) _ hdst2 j (by omega)]
    rw [heapRead_heapWrite_same h dst i _ hdst]
    rw [List.getD_eq_getElem?_getD, List.getElem?_set_ne (by omega),
      ← List.getD_eq_getElem?_getD]

theorem scaleLoop_read_dst (src dst : ℕ) (t : ℚ) (hne : src ≠ dst) :
    ∀ (cnt i : ℕ) (h : Heap),
    dst < h.length →
    i + cnt ≤ (heapRead h dst).length →
    ∀ j, i ≤ j → j < i + cnt →
    (heapRead (scaleLoop src dst t i cnt h) dst).getD j 0
      = (heapRead h src).getD j 0 / t
  | 0, i, h => fun _ _ j hj1 hj2 => absurd hj2 (by omega)
  | cnt + 1, i, h => fun hdst hlen j hj1 hj2 => by
    show (heapRead (scaleLoop src dst t (i + 1) cnt
        (heapWrite h dst i ((heapRead h src).getD i 0 / t))) dst).getD j 0
      = (heapRead h src).getD j 0 / t
    have hdst2 : dst < (heapWrite h dst i ((heapRead h src).getD i 0 / t)).length := by
      rw [heapWrite_length]
      exact hdst
    have hread2 : heapRead (heapWrite h dst i ((heapRead h src).getD i 0 / t)) dst
        = (heapRead h dst).set i ((heapRead h src).getD i 0 / t) :=
      heapRead_heapWrite_same h dst i _ hdst
    have hsrc2 : heapRead (heapWrite h dst i ((heapRead h src).getD i 0 / t)) src
        = heapRead h src :=
      heapRead_heapWrite_ne h i _ (fun he => hne he)
    by_cases hji : j = i
    · subst hji
      rw [scaleLoop_read_dst_lt src dst t cnt (j + 1) _ hdst2 j (by omega)]
      rw [hread2, List.getD_eq_getElem?_getD,
        List.getElem?_set_self (by omega)]
      rfl
    · have hlen2 : (i + 1) + cnt ≤ (heapRead (heapWrite h dst i
          ((heapRead h src).getD i 0 / t)) dst).length := by
        rw [hread2, List.length_set]
        omega
      have hrec := scaleLoop_read_dst src dst t hne cnt (i + 1) _ hdst2 hlen2 j
        (by omega) (by omega)
      rw [hrec, hsrc2]

theorem scaleStep_fst_length (h : Heap) (src : ℕ) (t : ℚ) :
    (scaleStep h src t).1.length = h.length + 1 := by
  unfold scaleStep
  rw [scaleLoop_length]
  simp

theorem scaleStep_read_ne (h : Heap) (src ref : ℕ) (t : ℚ) (href : ref < h.length) :
    heapRead (scaleStep h src t).1 ref = heapRead h ref := by
  unfold scaleStep
  rw [scaleLoop_read_ne src h.length ref t (by omega)]
  unfold heapRead
  rw [List.getD_eq_getElem?_getD, List.getElem?_append, if_pos href,
    ← List.getD_eq_getElem?_getD]

theorem scaleStep_read_dst (h : Heap) (src : ℕ) (t : ℚ) (hsrc : src < h.length) :
    ∀ j, j < (heapRead h src).length →
    (heapRead (scaleStep h src t).1 (scaleStep h src t).2).getD j 0
      = (heapRead h src).getD j 0 / t := by
  intro j hj
  have hdst : h.length < (h ++ [List.replicate (heapRead h src).length 0]).length := by
    simp
  have hr0 : heapRead (h ++ [List.replicate (heapRead h src).length 0]) h.length
      = List.replicate (heapRead h src).length 0 := by
    unfold heapRead
    rw [List.getD_eq_getElem?_getD, List.getElem?_append, if_neg (by omega)]
    simp
  have hrsrc : heapRead (h ++ [List.replicate (heapRead h src).length 0]) src
      = heapRead h src := by
    unfold heapRead
    rw [List.getD_eq_getElem?_getD, List.getD_eq_getElem?_getD, List.getElem?_append,
      if_pos hsrc]
  show (heapRead (scaleLoop src h.length t 0 (heapRead h src).length
      (h ++ [List.replicate (heapRead h src).length 0])) h.length).getD j 0
    = (heapRead h src).getD j 0 / t
  rw [scaleLoop_read_dst src h.length t (by omega) (heapRead h src).length 0 _ hdst
    (by rw [hr0]; simp) j (by omega) (by omega)]
  rw [hrsrc]

theorem recomputeIterH_read (E : ℚ → ℚ) (decode : ℕ → String) (r : ℚ)
    (temperature : ℚ) (topK : ℕ) (topP : ℚ) (src : ℕ) :
    ∀ (k : ℕ) (h : Heap), src < h.length →
    heapRead (recomputeIterH E decode r temperature topK topP src k h) src
      = heapRead h src
  | 0, h, _ => rfl
  | k + 1, h, hsrc => by
    show heapRead (recomputeIterH E decode r temperature topK topP src k
      (computePredictionsH E decode r h src temperature topK topP).1) src
      = heapRead h src
    have hfst : (computePredictionsH E decode r h src temperature topK topP).1
        = (scaleStep h src (tempOf temperature)).1 := rfl
    have hlen : src < (computePredictionsH E decode r h src temperature topK topP).1.length := by
      rw [hfst, scaleStep_fst_length]
      omega
    rw [recomputeIterH_read E decode r temperature topK topP src k _ hlen, hfst]
    exact scaleStep_read_ne h src src _ hsrc

/-- C10: `computePredictions` never mutates its `logits` argument: the
temperature scaling writes into a fresh array, so the heap cell behind the
logits reference is unchanged by a call, the call's result coincides with
the pure sampler applied to the (unchanged) logits array, and any number
of repeated `recomputePredictions` calls on the retained `lastLogits`
still sees the original raw scores. -/
theorem C10_no_logits_mutation (E : ℚ → ℚ) (decode : ℕ → String) (r : ℚ)
    (h : Heap) (src : ℕ) (temperature : ℚ) (topK : ℕ) (topP : ℚ)
    (hsrc : src < h.length) :
    heapRead (computePredictionsH E decode r h src temperature topK topP).1 src
      = heapRead h src ∧
    (computePredictionsH E decode r h src temperature topK topP).2
      = computePredictionsQ E decode r (heapRead h src) temperature topK topP ∧
    ∀ k, heapRead (recomputeIterH E decode r temperature topK topP src k h) src
      = heapRead h src := by
  have hfst : (computePredictionsH E decode r h src temperature topK topP).1
      = (scaleStep h src (tempOf temperature)).1 := rfl
  have hread : heapRead (computePredictionsH E decode r h src temperature topK topP).1 src
      = heapRead h src := by
    rw [hfst]
    exact scaleStep_read_ne h src src _ hsrc
  refine ⟨hread, ?_, fun k => recomputeIterH_read E decode r temperature topK topP src k h hsrc⟩
  have hsnd : (computePredictionsH E decode r h src temperature topK topP).2
      = (let topItems := (sortIndexed ((List.range
            (heapRead (scaleStep h src (tempOf temperature)).1 src).length).map fun i =>
          (⟨(heapRead (scaleStep h src (tempOf temperature)).1
              (scaleStep h src (tempOf temperature)).2).getD i 0,
            (heapRead (scaleStep h src (tempOf temperature)).1 src).getD i 0, i⟩ :
            Indexed))).take topK
        if topItems.isEmpty then none
        else some (samplePhase r topP (softmaxPreds E decode topItems))) := rfl
  rw [hsnd]
  have hsrcread : heapRead (scaleStep h src (tempOf temperature)).1 src = heapRead h src :=
    scaleStep_read_ne h src src _ hsrc
  have hindexed : ((List.range
        (heapRead (scaleStep h src (tempOf temperature)).1 src).length).map fun i =>
      (⟨(heapRead (scaleStep h src (tempOf temperature)).1
          (scaleStep h src (tempOf temperature)).2).getD i 0,
        (heapRead (scaleStep h src (tempOf temperature)).1 src).getD i 0, i⟩ : Indexed))
      = indexedOf (heapRead h src) (tempOf temperature) := by
    rw [hsrcread]
    unfold indexedOf
    apply List.map_congr_left
    intro i hi
    rw [List.mem_range] at hi
    rw [scaleStep_read_dst h src (tempOf temperature) hsrc i hi]
  rw [hindexed]
  rfl

/-- C10 witness: a two-entry logits array behind reference 0. -/
theorem C10_witness :
    0 < ([[3, 1]] : Heap).length ∧
    heapRead (computePredictionsH (fun _ => 1) (fun _ => "") (1 / 2) [[3, 1]] 0 1 2
        (9 / 10)).1 0
      = heapRead [[3, 1]] 0 ∧
    (computePredictionsH (fun _ => 1) (fun _ => "") (1 / 2) [[3, 1]] 0 1 2 (9 / 10)).2
      = computePredictionsQ (fun _ => 1) (fun _ => "") (1 / 2) (heapRead [[3, 1]] 0) 1 2
          (9 / 10) ∧
    heapRead (recomputeIterH (fun _ => 1) (fun _ => "") (1 / 2) 1 2 (9 / 10) 0 3 [[3, 1]]) 0
      = heapRead [[3, 1]] 0 := by
  have h := C10_no_logits_mutation (fun _ => 1) (fun _ => "") (1 / 2) [[3, 1]] 0 1 2
    (9 / 10) (by norm_num)
  exact ⟨by norm_num, h.1, h.2.1, h.2.2 3⟩

end LLMViz
